import Mathlib

/-!
Verification of the OAuth broker (`server.js`).

A shallow embedding of the request handlers of `server.js` (`/auth`, `/callback`),
of `isAllowedOrigin`, and of the library operations they rely on
(`JSON.stringify`, `JSON.parse`, `Buffer` UTF-8 and base64url conversions,
`URLSearchParams` serialisation).

JavaScript strings are sequences of 16-bit code units; they are embedded as
`List Nat`, every element below `65536` (`IsJSString`).  Byte buffers are
`List Nat` with every element below `256`.
-/

set_option maxRecDepth 100000

namespace OAuthProvider

/-! ## Strings -/

/-- A JavaScript string: a sequence of UTF-16 code units. -/
abbrev JSString := List Nat

/-- Bytes of a `Buffer`. -/
abbrev Bytes := List Nat

/-- Well-formedness of the embedding of a JavaScript string: every code unit fits 16 bits. -/
def IsJSString (s : JSString) : Prop := ∀ u ∈ s, u < 65536

instance (s : JSString) : Decidable (IsJSString s) := by
  unfold IsJSString
  infer_instance

/-- UTF-16 code units of one Unicode scalar value. -/
def utf16OfCodePoint (cp : Nat) : List Nat :=
  if cp < 65536 then [cp]
  else [55296 + (cp - 65536) / 1024, 56320 + (cp - 65536) % 1024]

/-- The JavaScript string denoted by a string literal of the source. -/
def lit (s : String) : JSString := s.toList.flatMap (fun c => utf16OfCodePoint c.toNat)

/-- Truthiness of a string: `!s` is true exactly for the empty string. -/
def strTruthy (s : JSString) : Bool := !s.isEmpty

/-- `s.startsWith(p)`. -/
def startsWith (s p : JSString) : Bool := p.isPrefixOf s

/-- `s.endsWith(p)`. -/
def endsWith (s p : JSString) : Bool := p.isSuffixOf s

/-- `s.includes(p)`: `p` occurs in `s` as a contiguous run of code units. -/
def includes : JSString → JSString → Bool
  | [], p => p.isEmpty
  | u :: s, p => p.isPrefixOf (u :: s) || includes s p

/-- `o.replace(/^https?:\/\//, '')`: removes a leading `http://` or `https://`. -/
def stripScheme (o : JSString) : JSString :=
  if startsWith o (lit "http://") then o.drop 7
  else if startsWith o (lit "https://") then o.drop 8
  else o

/-! ## JSON values -/

/-- JavaScript values that `JSON.parse` can produce.  A number keeps the text of its
literal; an object is the list of its own properties in enumeration order. -/
inductive JSON where
  | null
  | bool (b : Bool)
  | num (lexeme : JSString)
  | str (s : JSString)
  | arr (items : List JSON)
  | obj (props : List (JSString × JSON))

/-- Lower-case hexadecimal digit of a value below 16. -/
def hexDigit (d : Nat) : Nat := if d < 10 then 48 + d else 87 + d

/-- The escape `\uXXXX` of a code unit (four lower-case hexadecimal digits). -/
def unicodeEscape (u : Nat) : JSString :=
  [92, 117, hexDigit (u / 4096 % 16), hexDigit (u / 256 % 16), hexDigit (u / 16 % 16), hexDigit (u % 16)]

/-- Leading (high) surrogate code unit. -/
def isHighSurrogate (u : Nat) : Bool := 55296 ≤ u && u < 56320

/-- Trailing (low) surrogate code unit. -/
def isLowSurrogate (u : Nat) : Bool := 56320 ≤ u && u < 57344

/-- `QuoteJSONString` on one code point that is a single code unit. -/
def quoteUnit (u : Nat) : JSString :=
  if u = 8 then [92, 98]
  else if u = 9 then [92, 116]
  else if u = 10 then [92, 110]
  else if u = 12 then [92, 102]
  else if u = 13 then [92, 114]
  else if u = 34 then [92, 34]
  else if u = 92 then [92, 92]
  else if u < 32 || isHighSurrogate u || isLowSurrogate u then unicodeEscape u
  else [u]

/-- `QuoteJSONString` without the surrounding quotes: a surrogate pair is copied, every
other code unit is copied or escaped on its own. -/
def quoteBody : JSString → JSString
  | [] => []
  | [u] => quoteUnit u
  | u :: l :: rest =>
    if isHighSurrogate u && isLowSurrogate l then u :: l :: quoteBody rest
    else quoteUnit u ++ quoteBody (l :: rest)

/-- `QuoteJSONString`. -/
def quote (s : JSString) : JSString := 34 :: (quoteBody s ++ [34])

mutual
/-- `JSON.stringify(v)` for a value built from JSON data; `numText` renders a number
literal the way `JSON.stringify` renders the number it denotes. -/
def stringify (numText : JSString → JSString) : JSON → JSString
  | .null => lit "null"
  | .bool true => lit "true"
  | .bool false => lit "false"
  | .num l => numText l
  | .str s => quote s
  | .arr items => 91 :: (stringifyItems numText items ++ [93])
  | .obj props => 123 :: (stringifyProps numText props ++ [125])
/-- Elements of an array, separated by commas. -/
def stringifyItems (numText : JSString → JSString) : List JSON → JSString
  | [] => []
  | [v] => stringify numText v
  | v :: vs => stringify numText v ++ 44 :: stringifyItems numText vs
/-- Properties of an object, each `key:value`, separated by commas. -/
def stringifyProps (numText : JSString → JSString) : List (JSString × JSON) → JSString
  | [] => []
  | [(k, v)] => quote k ++ 58 :: stringify numText v
  | (k, v) :: ps => quote k ++ 58 :: (stringify numText v ++ 44 :: stringifyProps numText ps)
end

/-! ## `JSON.parse` -/

/-- JSON white space: tab, line feed, carriage return, space. -/
def isJSONWhitespace (u : Nat) : Bool := u = 9 || u = 10 || u = 13 || u = 32

/-- Drops leading JSON white space. -/
def skipWs : List Nat → List Nat
  | [] => []
  | u :: rest => if isJSONWhitespace u then skipWs rest else u :: rest

/-- Value of a hexadecimal digit (either case). -/
def hexValue (u : Nat) : Option Nat :=
  if 48 ≤ u ∧ u ≤ 57 then some (u - 48)
  else if 97 ≤ u ∧ u ≤ 102 then some (u - 87)
  else if 65 ≤ u ∧ u ≤ 70 then some (u - 55)
  else none

/-- The code unit denoted by a single-character escape. -/
def unescape (e : Nat) : Option Nat :=
  if e = 34 then some 34
  else if e = 92 then some 92
  else if e = 47 then some 47
  else if e = 98 then some 8
  else if e = 102 then some 12
  else if e = 110 then some 10
  else if e = 114 then some 13
  else if e = 116 then some 9
  else none

/-- Reads a JSON string after its opening quote: the string and the input after the
closing quote. -/
def parseStringBody : List Nat → Option (JSString × List Nat)
  | [] => none
  | u :: rest =>
    if u = 34 then some ([], rest)
    else if u < 32 then none
    else if u = 92 then
      match rest with
      | [] => none
      | e :: rest1 =>
        if e = 117 then
          match rest1 with
          | a :: b :: c :: d :: rest2 =>
            match hexValue a, hexValue b, hexValue c, hexValue d with
            | some x, some y, some z, some w =>
              (parseStringBody rest2).map (fun p => ((x * 4096 + y * 256 + z * 16 + w) :: p.1, p.2))
            | _, _, _, _ => none
          | _ => none
        else
          match unescape e with
          | some v => (parseStringBody rest1).map (fun p => (v :: p.1, p.2))
          | none => none
    else (parseStringBody rest).map (fun p => (u :: p.1, p.2))

/-- Decimal digit. -/
def isDigit (u : Nat) : Bool := 48 ≤ u && u ≤ 57

/-- Splits off the leading decimal digits. -/
def takeDigits : List Nat → List Nat × List Nat
  | [] => ([], [])
  | u :: rest =>
    if isDigit u then ((takeDigits rest).1.cons u, (takeDigits rest).2) else ([], u :: rest)

/-- Integer part of a JSON number: `0`, or a non-zero digit followed by digits. -/
def parseInt : List Nat → Option (JSString × List Nat)
  | [] => none
  | d :: rest =>
    if d = 48 then some ([48], rest)
    else if isDigit d then some (d :: (takeDigits rest).1, (takeDigits rest).2)
    else none

/-- Optional fraction of a JSON number: `.` followed by at least one digit. -/
def parseFrac : List Nat → Option (JSString × List Nat)
  | [] => some ([], [])
  | u :: rest =>
    if u = 46 then
      (if (takeDigits rest).1.isEmpty then none
       else some (46 :: (takeDigits rest).1, (takeDigits rest).2))
    else some ([], u :: rest)

/-- Optional exponent of a JSON number: `e` or `E`, an optional sign, at least one digit. -/
def parseExp : List Nat → Option (JSString × List Nat)
  | [] => some ([], [])
  | u :: rest =>
    if u = 101 || u = 69 then
      match rest with
      | [] => none
      | s :: rest1 =>
        if s = 43 || s = 45 then
          (if (takeDigits rest1).1.isEmpty then none
           else some (u :: s :: (takeDigits rest1).1, (takeDigits rest1).2))
        else
          (if (takeDigits (s :: rest1)).1.isEmpty then none
           else some (u :: (takeDigits (s :: rest1)).1, (takeDigits (s :: rest1)).2))
    else some ([], u :: rest)

/-- Reads a JSON number: its literal text and the remaining input. -/
def parseNumber (input : List Nat) : Option (JSString × List Nat) :=
  let sign : JSString := if input.head? = some 45 then [45] else []
  let body := if input.head? = some 45 then input.drop 1 else input
  match parseInt body with
  | none => none
  | some (i, r1) =>
    match parseFrac r1 with
    | none => none
    | some (f, r2) =>
      match parseExp r2 with
      | none => none
      | some (e, r3) => some (sign ++ i ++ f ++ e, r3)

/-- Numeric value of a string of decimal digits. -/
def decimalValue (k : JSString) : Nat := k.foldl (fun acc d => acc * 10 + (d - 48)) 0

/-- The array index denoted by a property key, when the key is the canonical decimal
form of an integer below `2^32 - 1`. -/
def arrayIndex (k : JSString) : Option Nat :=
  match k with
  | [] => none
  | d :: rest =>
    if k.all isDigit && (d != 48 || rest.isEmpty) && k.length ≤ 10 && decimalValue k < 4294967295
    then some (decimalValue k) else none

/-- Inserts a new array-index property at its place in ascending index order, before
the string-keyed properties. -/
def insertIndexProp (i : Nat) (kv : JSString × JSON) : List (JSString × JSON) → List (JSString × JSON)
  | [] => [kv]
  | p :: ps =>
    match arrayIndex p.1 with
    | some j => if j < i then p :: insertIndexProp i kv ps else kv :: p :: ps
    | none => kv :: p :: ps

/-- Defines the own property `k` with value `v`: an existing property keeps its place
and takes the new value; a new property is added in enumeration order. -/
def setProp (props : List (JSString × JSON)) (k : JSString) (v : JSON) : List (JSString × JSON) :=
  if props.any (fun p => p.1 = k) then props.map (fun p => if p.1 = k then (k, v) else p)
  else
    match arrayIndex k with
    | some i => insertIndexProp i (k, v) props
    | none => props ++ [(k, v)]

mutual
/-- Reads one JSON value, white space before it included. -/
def parseValue : Nat → List Nat → Option (JSON × List Nat)
  | 0, _ => none
  | fuel + 1, input =>
    match skipWs input with
    | [] => none
    | u :: rest =>
      if u = 34 then (parseStringBody rest).map (fun p => (JSON.str p.1, p.2))
      else if u = 91 then
        match skipWs rest with
        | [] => none
        | c :: rest1 =>
          if c = 93 then some (JSON.arr [], rest1) else parseElements fuel (c :: rest1) []
      else if u = 123 then
        match skipWs rest with
        | [] => none
        | c :: rest1 =>
          if c = 125 then some (JSON.obj [], rest1) else parseMembers fuel (c :: rest1) []
      else if startsWith (u :: rest) (lit "null") then some (JSON.null, rest.drop 3)
      else if startsWith (u :: rest) (lit "true") then some (JSON.bool true, rest.drop 3)
      else if startsWith (u :: rest) (lit "false") then some (JSON.bool false, rest.drop 4)
      else if u = 45 || isDigit u then
        (parseNumber (u :: rest)).map (fun p => (JSON.num p.1, p.2))
      else none
/-- Reads the elements of an array up to its closing bracket. -/
def parseElements : Nat → List Nat → List JSON → Option (JSON × List Nat)
  | 0, _, _ => none
  | fuel + 1, input, acc =>
    match parseValue fuel input with
    | none => none
    | some (v, rest) =>
      match skipWs rest with
      | [] => none
      | c :: rest1 =>
        if c = 44 then parseElements fuel rest1 (acc ++ [v])
        else if c = 93 then some (JSON.arr (acc ++ [v]), rest1)
        else none
/-- Reads the members of an object up to its closing brace. -/
def parseMembers : Nat → List Nat → List (JSString × JSON) → Option (JSON × List Nat)
  | 0, _, _ => none
  | fuel + 1, input, acc =>
    match skipWs input with
    | [] => none
    | q :: rest =>
      if q = 34 then
        match parseStringBody rest with
        | none => none
        | some (k, rest1) =>
          match skipWs rest1 with
          | [] => none
          | c :: rest2 =>
            if c = 58 then
              match parseValue fuel rest2 with
              | none => none
              | some (v, rest3) =>
                match skipWs rest3 with
                | [] => none
                | d :: rest4 =>
                  if d = 44 then parseMembers fuel rest4 (setProp acc k v)
                  else if d = 125 then some (JSON.obj (setProp acc k v), rest4)
                  else none
            else none
      else none
end

/-- `JSON.parse(text)`: `none` stands for the `SyntaxError`.  The fuel is never
exhausted (`parseValue_fuel_enough`). -/
def jsonParse (text : JSString) : Option JSON :=
  match parseValue (2 * text.length + 2) text with
  | none => none
  | some (v, rest) => if (skipWs rest).isEmpty then some v else none

/-- Read of a property of a parsed value (`none` is `undefined`); primitives and arrays
have no such named property. -/
def getProp (v : JSON) (k : JSString) : Option JSON :=
  match v with
  | .obj props => (props.find? (fun p => p.1 = k)).map (fun p => p.2)
  | _ => none

/-! ## `Buffer`: UTF-8 and base64url -/

/-- UTF-8 bytes of a Unicode scalar value. -/
def utf8EncodeCodePoint (cp : Nat) : Bytes :=
  if cp < 128 then [cp]
  else if cp < 2048 then [192 + cp / 64, 128 + cp % 64]
  else if cp < 65536 then [224 + cp / 4096, 128 + cp / 64 % 64, 128 + cp % 64]
  else [240 + cp / 262144, 128 + cp / 4096 % 64, 128 + cp / 64 % 64, 128 + cp % 64]

/-- UTF-8 bytes of a code unit standing alone: an unpaired surrogate becomes U+FFFD. -/
def utf8EncodeUnit (u : Nat) : Bytes :=
  if isHighSurrogate u || isLowSurrogate u then [239, 191, 189] else utf8EncodeCodePoint u

/-- `Buffer.from(s, 'utf8')`. -/
def utf8Encode : JSString → Bytes
  | [] => []
  | [u] => utf8EncodeUnit u
  | u :: l :: rest =>
    if isHighSurrogate u && isLowSurrogate l then
      utf8EncodeCodePoint (65536 + (u - 55296) * 1024 + (l - 56320)) ++ utf8Encode rest
    else utf8EncodeUnit u ++ utf8Encode (l :: rest)

/-- State of the UTF-8 decoder between bytes. -/
structure Utf8State where
  needed : Nat
  codePoint : Nat
  lower : Nat
  upper : Nat

/-- Decoder state with no sequence pending. -/
def Utf8State.idle : Utf8State := ⟨0, 0, 128, 191⟩

/-- A byte met with no sequence pending: the code point it yields at once, if any, and
the state it leaves. -/
def utf8Lead (b : Nat) : Option Nat × Utf8State :=
  if b < 128 then (some b, Utf8State.idle)
  else if 194 ≤ b ∧ b ≤ 223 then (none, ⟨1, b - 192, 128, 191⟩)
  else if 224 ≤ b ∧ b ≤ 239 then
    (none, ⟨2, b - 224, if b = 224 then 160 else 128, if b = 237 then 159 else 191⟩)
  else if 240 ≤ b ∧ b ≤ 244 then
    (none, ⟨3, b - 240, if b = 240 then 144 else 128, if b = 244 then 143 else 191⟩)
  else (some 65533, Utf8State.idle)

/-- The UTF-8 decoder with replacement: the code points of a byte sequence. -/
def utf8DecodeFrom : Utf8State → Bytes → List Nat
  | st, [] => if st.needed = 0 then [] else [65533]
  | st, b :: rest =>
    if st.needed = 0 then
      (utf8Lead b).1.toList ++ utf8DecodeFrom (utf8Lead b).2 rest
    else if st.lower ≤ b ∧ b ≤ st.upper then
      (if st.needed = 1 then
        (st.codePoint * 64 + (b - 128)) :: utf8DecodeFrom Utf8State.idle rest
       else utf8DecodeFrom ⟨st.needed - 1, st.codePoint * 64 + (b - 128), 128, 191⟩ rest)
    else 65533 :: ((utf8Lead b).1.toList ++ utf8DecodeFrom (utf8Lead b).2 rest)

/-- `buf.toString('utf8')`. -/
def utf8Decode (bs : Bytes) : JSString := (utf8DecodeFrom Utf8State.idle bs).flatMap utf16OfCodePoint

/-- Character of the base64url alphabet for a 6-bit value. -/
def base64urlChar (v : Nat) : Nat :=
  if v < 26 then 65 + v
  else if v < 52 then 97 + (v - 26)
  else if v < 62 then 48 + (v - 52)
  else if v = 62 then 45
  else 95

/-- `buf.toString('base64url')`: no padding. -/
def base64urlEncode : Bytes → JSString
  | [] => []
  | [a] => [base64urlChar (a / 4), base64urlChar (a % 4 * 16)]
  | [a, b] => [base64urlChar (a / 4), base64urlChar (a % 4 * 16 + b / 16), base64urlChar (b % 16 * 4)]
  | a :: b :: c :: rest =>
    base64urlChar (a / 4) :: base64urlChar (a % 4 * 16 + b / 16) ::
      base64urlChar (b % 16 * 4 + c / 64) :: base64urlChar (c % 64) :: base64urlEncode rest

/-- The 6-bit value of a byte that is a character of the standard or of the URL-safe
alphabet. -/
def unbase64 (u : Nat) : Option Nat :=
  if 65 ≤ u ∧ u ≤ 90 then some (u - 65)
  else if 97 ≤ u ∧ u ≤ 122 then some (u - 71)
  else if 48 ≤ u ∧ u ≤ 57 then some (u + 4)
  else if u = 43 ∨ u = 45 then some 62
  else if u = 47 ∨ u = 95 then some 63
  else none

/-- The 6-bit values read by the decoder.  Every code unit is read by its low byte: a
byte outside the alphabet is skipped, and the byte `=` ends the input. -/
def sextets : JSString → List Nat
  | [] => []
  | u :: rest =>
    if u % 256 = 61 then []
    else
      match unbase64 (u % 256) with
      | some v => v :: sextets rest
      | none => sextets rest

/-- Bytes of a sequence of 6-bit values; a lone trailing value yields nothing. -/
def packSextets : List Nat → Bytes
  | a :: b :: c :: d :: rest =>
    (a * 4 + b / 16) :: (b % 16 * 16 + c / 4) :: (c % 4 * 64 + d) :: packSextets rest
  | [a, b, c] => [a * 4 + b / 16, b % 16 * 16 + c / 4]
  | [a, b] => [a * 4 + b / 16]
  | _ => []

/-- `Buffer.from(s, 'base64url')`: the decoder looks at the low byte of each code unit,
so `U+0141` reads as `A` and `U+013D` as `=`. -/
def base64urlDecode (s : JSString) : Bytes := packSextets (sextets s)

/-- `buf.toString('hex')`. -/
def hexEncode (bs : Bytes) : JSString := bs.flatMap (fun b => [hexDigit (b / 16), hexDigit (b % 16)])

/-! ## `URL` and `URLSearchParams` -/

/-- Upper-case hexadecimal digit of a value below 16. -/
def upperHexDigit (d : Nat) : Nat := if d < 10 then 48 + d else 55 + d

/-- The `application/x-www-form-urlencoded` form of one byte (eight bits). -/
def formEncodeByte (b : Nat) : JSString :=
  if (48 ≤ b ∧ b ≤ 57) ∨ (65 ≤ b ∧ b ≤ 90) ∨ (97 ≤ b ∧ b ≤ 122) ∨ b = 42 ∨ b = 45 ∨ b = 46 ∨ b = 95
  then [b]
  else if b = 32 then [43]
  else [37, upperHexDigit (b / 16 % 16), upperHexDigit (b % 16)]

/-- The `application/x-www-form-urlencoded` form of a string. -/
def formEncode (s : JSString) : JSString := (utf8Encode s).flatMap formEncodeByte

/-- Serialisation of a list of query parameters: `name=value` joined by `&`. -/
def serializeParams : List (JSString × JSString) → JSString
  | [] => []
  | [(n, v)] => formEncode n ++ 61 :: formEncode v
  | (n, v) :: ps => formEncode n ++ 61 :: (formEncode v ++ 38 :: serializeParams ps)

/-- `searchParams.set(name, value)`: the first parameter of that name takes the value
and later ones are removed; without one, the parameter is appended. -/
def searchParamsSet (ps : List (JSString × JSString)) (name value : JSString) : List (JSString × JSString) :=
  match ps.span (fun p => p.1 != name) with
  | (before, []) => before ++ [(name, value)]
  | (before, _ :: after) => before ++ (name, value) :: after.filter (fun p => p.1 != name)

/-- Conversion to string of a configuration value that may be `undefined`. -/
def stringOfOptional : Option JSString → JSString
  | none => lit "undefined"
  | some s => s

/-! ## Reading a URL's query parameters -/

/-- Splits a sequence at every occurrence of `sep`. -/
def splitOn (sep : Nat) : List Nat → List (List Nat)
  | [] => [[]]
  | u :: rest =>
    if u = sep then [] :: splitOn sep rest
    else (u :: (splitOn sep rest).headD []) :: (splitOn sep rest).tail

/-- Percent-decoding of a byte sequence: `%` followed by two hexadecimal digits is one
byte, every other byte stands for itself. -/
def percentDecode : List Nat → Bytes
  | [] => []
  | [a] => [a]
  | [a, b] => [a, b]
  | a :: b :: c :: rest =>
    if a = 37 then
      match hexValue b, hexValue c with
      | some x, some y => (x * 16 + y) :: percentDecode rest
      | _, _ => a :: percentDecode (b :: c :: rest)
    else a :: percentDecode (b :: c :: rest)

/-- Decoding of a name or value of a form-urlencoded query: `+` is a space, then
percent-decoding, then UTF-8 decoding. -/
def formDecode (piece : Bytes) : JSString :=
  utf8Decode (percentDecode (piece.map (fun b => if b = 43 then 32 else b)))

/-- The query of a URL string: what follows the first `?`, up to a `#`. -/
def queryOf (url : JSString) : JSString :=
  ((url.dropWhile (fun u => u != 63)).drop 1).takeWhile (fun u => u != 35)

/-- The form-urlencoded parser: the name-value pairs of a query. -/
def parseParams (query : JSString) : List (JSString × JSString) :=
  ((splitOn 38 (utf8Encode query)).filter (fun p => !p.isEmpty)).map
    (fun p => (formDecode (p.takeWhile (fun b => b != 61)),
      formDecode ((p.dropWhile (fun b => b != 61)).drop 1)))

/-- The value read by `new URL(url).searchParams.get(name)`: that of the first parameter
with this name. -/
def searchParamsGet (url name : JSString) : Option JSString :=
  ((parseParams (queryOf url)).find? (fun p => p.1 = name)).map (fun p => p.2)

/-- The values read by `new URL(url).searchParams.getAll(name)`: those of every parameter
with this name, in order. -/
def searchParamsGetAll (url name : JSString) : List JSString :=
  ((parseParams (queryOf url)).filter (fun p => p.1 = name)).map (fun p => p.2)

/-- The part of a URL string before its query: what precedes the first `?`. -/
def beforeQuery (url : JSString) : JSString := url.takeWhile (fun u => u != 63)

/-- Number of positions of `s` at which `p` occurs. -/
def occurrences : JSString → JSString → Nat
  | [], p => if p.isEmpty then 1 else 0
  | u :: s, p => (if p.isPrefixOf (u :: s) then 1 else 0) + occurrences s p

/-! ## Environment of the handlers -/

/-- Outcome of the token exchange (`fetch` followed by `tokenResp.json()`): an
exception with its message, or the parsed response. -/
inductive ExchangeResult where
  | threw (message : JSString)
  | returned (tokenData : JSON)

/-- What the handlers take from the platform and from the network. -/
structure Platform where
  /-- Value of `new URL(s).host`; `none` when the constructor throws. -/
  urlHost : JSString → Option JSString
  /-- Value of `String(x)` for the number `x` denoted by a JSON number literal. -/
  numberToString : JSString → JSString
  /-- Message of the `TypeError` raised by reading a property of `null`. -/
  nullReadMessage : JSString
  /-- Outcome of the POST to the token endpoint, by request body. -/
  exchange : JSString → ExchangeResult

/-- Values read from the process environment at start-up; a variable that is not set is
`undefined`. -/
structure Config where
  CLIENT_ID : Option JSString
  CLIENT_SECRET : Option JSString
  REDIRECT_URL : Option JSString
  ORIGINS : List JSString
  SCOPES : JSString

/-- Truthiness of a parsed value; a number is falsy when it is zero. -/
def truthy (P : Platform) : JSON → Bool
  | .null => false
  | .bool b => b
  | .num l => P.numberToString l != lit "0"
  | .str s => strTruthy s
  | .arr _ => true
  | .obj _ => true

/-- Rendering of a number by `JSON.stringify`: `null` for an infinite number. -/
def numberToJSON (P : Platform) (l : JSString) : JSString :=
  if P.numberToString l = lit "Infinity" ∨ P.numberToString l = lit "-Infinity" then lit "null"
  else P.numberToString l

mutual
/-- Conversion of a parsed value to a string, as applied by `new URL(x)` to its
argument. -/
def toJSString (P : Platform) : JSON → JSString
  | .null => lit "null"
  | .bool true => lit "true"
  | .bool false => lit "false"
  | .num l => P.numberToString l
  | .str s => s
  | .arr items => joinItems P items
  | .obj _ => lit "[object Object]"
/-- Elements of an array joined by commas, `null` rendered as the empty string. -/
def joinItems (P : Platform) : List JSON → JSString
  | [] => []
  | [.null] => []
  | [v] => toJSString P v
  | .null :: vs => 44 :: joinItems P vs
  | v :: vs => toJSString P v ++ 44 :: joinItems P vs
end

/-! ## `isAllowedOrigin` -/

/-- The test applied by `isAllowedOrigin` to one entry `o` of `ORIGINS`. -/
def originMatches (host o : JSString) : Bool :=
  if o.isEmpty then false
  else if startsWith o (lit "*.") then endsWith host (o.drop 1)
  else host = o || host = stripScheme o

/-- `isAllowedOrigin(originParam)` for a string argument. -/
def isAllowedOrigin (P : Platform) (ORIGINS : List JSString) (originParam : JSString) : Bool :=
  match P.urlHost originParam with
  | none => false
  | some host => ORIGINS.any (originMatches host)

/-! ## Responses -/

/-- Options passed to `res.cookie`. -/
structure CookieOptions where
  httpOnly : Bool
  secure : Bool
  sameSite : JSString
  maxAge : Nat
deriving DecidableEq

/-- A call of `res.cookie(name, value, options)`. -/
structure Cookie where
  name : JSString
  value : JSString
  options : CookieOptions
deriving DecidableEq

/-- The call that ends the response. -/
inductive Reply where
  | send (status : Nat) (body : JSString)
  | redirect (url : JSString)
deriving DecidableEq

/-- What a handler did: the cookies it set, the content type it set, the requests it
posted to the token endpoint (their bodies), and the call that ended the response. -/
structure Response where
  cookies : List Cookie
  contentType : Option JSString
  tokenRequests : List JSString
  reply : Reply
deriving DecidableEq

/-- The response `res.status(status).send(body)` with nothing else done. -/
def plain (status : Nat) (body : JSString) : Response := ⟨[], none, [], Reply.send status body⟩

/-! ## `GET /auth` -/

/-- Query parameters read by `/auth` (string-valued). -/
structure AuthQuery where
  provider : Option JSString
  origin : Option JSString
  site_id : Option JSString
  scope : Option JSString

/-- The expression `a || b` on optional strings. -/
def orElse (a b : Option JSString) : Option JSString :=
  match a with
  | some s => if strTruthy s then some s else b
  | none => b

/-- The origin after normalisation: `raw` itself when it contains `://`. -/
def normalizeOrigin (raw : JSString) : JSString :=
  if includes raw (lit "://") then raw else lit "https://" ++ raw

/-- The state token: `Buffer.from(JSON.stringify({ csrf, origin }), 'utf8').toString('base64url')`. -/
def encodeState (csrf origin : JSString) : JSString :=
  base64urlEncode (utf8Encode
    (stringify id (JSON.obj [(lit "csrf", JSON.str csrf), (lit "origin", JSON.str origin)])))

/-- The options of the `oauth_state` cookie. -/
def stateCookieOptions : CookieOptions := ⟨true, true, lit "lax", 10 * 60 * 1000⟩

/-- The URL of the redirect: the authorize endpoint with the four parameters set in
order. -/
def authorizeUrl (cfg : Config) (scope statePayload : JSString) : JSString :=
  lit "https://github.com/login/oauth/authorize" ++ 63 ::
    serializeParams
      (searchParamsSet
        (searchParamsSet
          (searchParamsSet
            (searchParamsSet [] (lit "client_id") (stringOfOptional cfg.CLIENT_ID))
            (lit "redirect_uri") (stringOfOptional cfg.REDIRECT_URL))
          (lit "scope") scope)
        (lit "state") statePayload)

/-- The handler of `GET /auth`; `random` is the result of `crypto.randomBytes(16)`. -/
def auth (P : Platform) (cfg : Config) (random : Bytes) (q : AuthQuery) : Response :=
  let provider := q.provider.getD (lit "github")
  if provider ≠ lit "github" then plain 400 (lit "Unsupported provider")
  else
    match orElse q.origin q.site_id with
    | none => plain 400 (lit "Origin not allowed")
    | some raw =>
      if !strTruthy raw then plain 400 (lit "Origin not allowed")
      else
        let origin := normalizeOrigin raw
        let scope := (orElse q.scope (some cfg.SCOPES)).getD cfg.SCOPES
        if !isAllowedOrigin P cfg.ORIGINS origin then plain 400 (lit "Origin not allowed")
        else
          let csrf := hexEncode random
          let statePayload := encodeState csrf origin
          ⟨[⟨lit "oauth_state", statePayload, stateCookieOptions⟩], none, [],
            Reply.redirect (authorizeUrl cfg scope statePayload)⟩

/-! ## `GET /callback` -/

/-- Query parameters and cookie read by `/callback` (string-valued). -/
structure CallbackRequest where
  code : Option JSString
  state : Option JSString
  oauth_state : Option JSString

/-- Decoding of the state: `JSON.parse(Buffer.from(state, 'base64url').toString('utf8'))`;
`none` when `JSON.parse` throws. -/
def decodeState (state : JSString) : Option JSON :=
  jsonParse (utf8Decode (base64urlDecode state))

/-- Body of the POST to the token endpoint; a property whose value is `undefined` is
left out by `JSON.stringify`. -/
def tokenRequestBody (cfg : Config) (code : JSString) : JSString :=
  stringify id (JSON.obj
    ((cfg.CLIENT_ID.map (fun v => (lit "client_id", JSON.str v))).toList ++
     (cfg.CLIENT_SECRET.map (fun v => (lit "client_secret", JSON.str v))).toList ++
     [(lit "code", JSON.str code)] ++
     (cfg.REDIRECT_URL.map (fun v => (lit "redirect_uri", JSON.str v))).toList))

/-- The page before the message literal. -/
def pageHead (title logLine : String) : JSString :=
  lit ("<!doctype html>\n" ++
    "<html><head><meta charset=\"utf-8\"/><title>" ++ title ++ "</title></head>\n" ++
    "<body>\n" ++
    "<script>\n" ++
    "  (function()\x7b\n" ++
    "    function receiveMessage(e) \x7b\n" ++
    "      console.log(\"receiveMessage %o\", e);\n" ++
    "      // send " ++ logLine ++ "\n" ++
    "      window.opener.postMessage(")

/-- The page after the message literal. -/
def pageTail (sending closing : String) : JSString :=
  lit (", e.origin);\n" ++
    "    \x7d\n" ++
    "\n" ++
    "    window.addEventListener(\"message\", receiveMessage, false);\n" ++
    "\n" ++
    "    // Start handshake with parent\n" ++
    "    console.log(\"Sending " ++ sending ++ ": %o\", \"github\");\n" ++
    "    window.opener.postMessage(\"authorizing:github\", \"*\");\n" ++
    "  \x7d)();\n" ++
    "</script>\n" ++
    "<p>Authentication " ++ closing ++ ". You can close this window.</p>\n" ++
    "</body></html>")

/-- The success page around the message literal. -/
def successHtml (message : JSString) : JSString :=
  pageHead "Auth Complete" "message to main window with the app" ++ message ++
    pageTail "message" "complete"

/-- The error page around the message literal. -/
def errorHtml (errorMessage : JSString) : JSString :=
  pageHead "Auth Error" "error message to main window" ++ errorMessage ++
    pageTail "error message" "failed"

/-- The literal relayed by the success page:
`JSON.stringify('authorization:github:success:' + JSON.stringify({ token, provider }))`. -/
def successMessage (P : Platform) (accessToken : JSON) : JSString :=
  quote (lit "authorization:github:success:" ++
    stringify (numberToJSON P)
      (JSON.obj [(lit "token", accessToken), (lit "provider", JSON.str (lit "github"))]))

/-- The literal relayed by the error page, for the exception message `m`:
`e.message || 'OAuth error'` wrapped the same way. -/
def errorMessage (m : JSString) : JSString :=
  quote (lit "authorization:github:error:" ++
    stringify id (JSON.obj [(lit "error", JSON.str (if strTruthy m then m else lit "OAuth error"))]))

/-- The `catch` block of `/callback`. -/
def exchangeFailed (requests : List JSString) (m : JSString) : Response :=
  ⟨[], some (lit "text/html; charset=utf-8"), requests, Reply.send 500 (errorHtml (errorMessage m))⟩

/-- The `try` block of `/callback` after the request was posted. -/
def afterExchange (P : Platform) (requests : List JSString) : ExchangeResult → Response
  | .threw m => exchangeFailed requests m
  | .returned .null => exchangeFailed requests P.nullReadMessage
  | .returned tokenData =>
    match getProp tokenData (lit "access_token") with
    | none => ⟨[], none, requests, Reply.send 400 (lit "Failed to obtain access token")⟩
    | some accessToken =>
      if !truthy P accessToken then
        ⟨[], none, requests, Reply.send 400 (lit "Failed to obtain access token")⟩
      else
        ⟨[], some (lit "text/html; charset=utf-8"), requests,
          Reply.send 200 (successHtml (successMessage P accessToken))⟩

/-- The binding `const { origin } = parsed || {}`; `none` is `undefined`. -/
def originOf (P : Platform) (parsed : JSON) : Option JSON :=
  getProp (if truthy P parsed then parsed else JSON.obj []) (lit "origin")

/-- The handler of `GET /callback`. -/
def callback (P : Platform) (cfg : Config) (req : CallbackRequest) : Response :=
  match req.code, req.state with
  | some code, some state =>
    if !strTruthy code || !strTruthy state then plain 400 (lit "Missing code/state")
    else
      let cookieState := req.oauth_state
      if !(cookieState.any strTruthy) || cookieState ≠ some state then
        plain 400 (lit "Invalid state")
      else
        match decodeState state with
        | none => plain 400 (lit "Bad state")
        | some parsed =>
          match originOf P parsed with
          | none => plain 400 (lit "Origin not allowed")
          | some origin =>
            if !truthy P origin || !isAllowedOrigin P cfg.ORIGINS (toJSString P origin) then
              plain 400 (lit "Origin not allowed")
            else
              let body := tokenRequestBody cfg code
              afterExchange P [body] (P.exchange body)
  | _, _ => plain 400 (lit "Missing code/state")

/-- A string of 16-bit code units in which every surrogate is part of a pair. -/
inductive WellFormed : JSString → Prop where
  | nil : WellFormed []
  | unit (u : Nat) (s : JSString) : u < 65536 → isHighSurrogate u = false →
      isLowSurrogate u = false → WellFormed s → WellFormed (u :: s)
  | pair (h l : Nat) (s : JSString) : isHighSurrogate h = true → isLowSurrogate l = true →
      WellFormed s → WellFormed (h :: l :: s)

/-! ## Example data -/

/-- Hosts reported by `new URL(s).host` for the URLs used in the examples; the table
covers nothing else. -/
def exampleHosts (s : JSString) : Option JSString :=
  if s = lit "https://site.example" then some (lit "site.example")
  else if s = lit "https://evil.example" then some (lit "evil.example")
  else if s = lit "https://example.com" then some (lit "example.com")
  else if s = lit "https://a.example.com" then some (lit "a.example.com")
  else if s = lit "https://evilexample.com" then some (lit "evilexample.com")
  else none

/-- A platform for the examples: the hosts of `exampleHosts`, a fixed exchange outcome.
The examples contain no JSON number. -/
def examplePlatform (outcome : ExchangeResult) : Platform :=
  ⟨exampleHosts, id, lit "Cannot read properties of null (reading \x27access_token\x27)", fun _ => outcome⟩

/-- A configuration for the examples, with allow-list `["site.example"]`. -/
def exampleConfig : Config :=
  ⟨some (lit "client-id"), some (lit "client-secret"), some (lit "https://oauth.example/callback"),
    [lit "site.example"], lit "public_repo"⟩

/-- A response of the token endpoint carrying the access token `ghp_xyz`. -/
def tokenResponse : JSON := JSON.obj [(lit "access_token", JSON.str (lit "ghp_xyz"))]

/-- Sixteen bytes standing for a draw of `crypto.randomBytes(16)`. -/
def exampleRandom : Bytes := [0, 1, 2, 3, 4, 5, 6, 7, 8, 9, 10, 11, 12, 13, 14, 255]

/-- The state token for `exampleRandom` and the origin `https://site.example`. -/
def exampleToken : JSString :=
  lit "eyJjc3JmIjoiMDAwMTAyMDMwNDA1MDYwNzA4MDkwYTBiMGMwZDBlZmYiLCJvcmlnaW4iOiJodHRwczovL3NpdGUuZXhhbXBsZSJ9"

/-- The state token for `exampleRandom` and the origin `https://evil.example`. -/
def evilToken : JSString := encodeState (hexEncode exampleRandom) (lit "https://evil.example")

/-- The token `exampleToken` with its sixteenth character changed from `w` to `x`. -/
def changedToken : JSString :=
  lit "eyJjc3JmIjoiMDAxMTAyMDMwNDA1MDYwNzA4MDkwYTBiMGMwZDBlZmYiLCJvcmlnaW4iOiJodHRwczovL3NpdGUuZXhhbXBsZSJ9"

/-- The token `exampleToken` with its first character `e` replaced by `U+0165`, whose low
byte is that of `e`. -/
def lowByteToken : JSString := 357 :: exampleToken.drop 1

/-- The token `exampleToken` followed by `U+013D`, whose low byte is that of `=`, and by
characters that are ignored after it. -/
def paddedToken : JSString := exampleToken ++ 317 :: lit "garbage"

/-- The first fifty characters of `exampleToken`. -/
def truncatedToken : JSString := exampleToken.take 50

/-- An access token that is a closing script tag. -/
def scriptToken : JSString := lit "</script>"

/-- A response of the token endpoint carrying `scriptToken`. -/
def scriptResponse : JSON := JSON.obj [(lit "access_token", JSON.str scriptToken)]

/-! ## Theorems -/

theorem strTruthy_of_ne_nil (s : JSString) (h : s ≠ []) : strTruthy s = true := by
  cases s with
  | nil => exact absurd rfl h
  | cons a t => rfl

/-- C1. A callback with non-empty `code` and `state` whose `oauth_state` cookie is absent,
empty, or different from `state` in any way gets 400 "Invalid state"; nothing depends on
what the state would decode to, no request goes to the token endpoint, no cookie or
content type is set and no page is sent. -/
theorem callback_invalid_state (P : Platform) (cfg : Config) (code state : JSString)
    (cookie : Option JSString) (hcode : code ≠ []) (hstate : state ≠ [])
    (hcookie : cookie = none ∨ cookie = some [] ∨ cookie ≠ some state) :
    callback P cfg ⟨some code, some state, cookie⟩ =
      ⟨[], none, [], Reply.send 400 (lit "Invalid state")⟩ := by
  have h1 := strTruthy_of_ne_nil code hcode
  have h2 := strTruthy_of_ne_nil state hstate
  rcases hcookie with h | h | h
  · subst h
    simp [callback, h1, h2, plain]
  · subst h
    have h3 : strTruthy [] = false := rfl
    simp [callback, h1, h2, plain, h3]
  · simp [callback, h1, h2, plain, h]

/-- Scenario 4: `GET /callback?code=abc123&state=<token>` without a cookie. -/
theorem callback_invalid_state_witness :
    callback (examplePlatform (.threw [])) exampleConfig ⟨some (lit "abc123"), some exampleToken, none⟩ =
      ⟨[], none, [], Reply.send 400 (lit "Invalid state")⟩ :=
  callback_invalid_state _ _ (lit "abc123") exampleToken none (by decide) (by decide) (Or.inl rfl)

/-- C2. A callback that passes the CSRF gate and whose state decodes to a JSON value
gets 400 "Origin not allowed", with no request to the token endpoint, when the decoded
value has no `origin` or when `isAllowedOrigin` rejects it. -/
theorem callback_origin_not_allowed (P : Platform) (cfg : Config) (code state : JSString)
    (parsed : JSON) (hcode : code ≠ []) (hstate : state ≠ [])
    (hdecode : decodeState state = some parsed)
    (horigin : originOf P parsed = none ∨
      ∃ origin, originOf P parsed = some origin ∧
        isAllowedOrigin P cfg.ORIGINS (toJSString P origin) = false) :
    callback P cfg ⟨some code, some state, some state⟩ =
      ⟨[], none, [], Reply.send 400 (lit "Origin not allowed")⟩ := by
  have h1 := strTruthy_of_ne_nil code hcode
  have h2 := strTruthy_of_ne_nil state hstate
  rcases horigin with h | ⟨origin, h, hna⟩
  · simp [callback, h1, h2, plain, hdecode, h]
  · simp [callback, h1, h2, plain, hdecode, h, hna]

/-- A state naming `https://evil.example` under the allow-list `["site.example"]`. -/
theorem callback_origin_not_allowed_witness :
    callback (examplePlatform (.threw [])) exampleConfig
        ⟨some (lit "abc123"), some evilToken, some evilToken⟩ =
      ⟨[], none, [], Reply.send 400 (lit "Origin not allowed")⟩ :=
  callback_origin_not_allowed _ _ (lit "abc123") evilToken
    (JSON.obj [(lit "csrf", JSON.str (hexEncode exampleRandom)),
      (lit "origin", JSON.str (lit "https://evil.example"))])
    (by decide) (by decide) (by rfl)
    (Or.inr ⟨JSON.str (lit "https://evil.example"), by rfl, by decide⟩)

/-- C3. `/auth` with provider `github` or none answers 400 "Origin not allowed" when
`isAllowedOrigin` rejects the normalised origin; it sets no cookie, issues no redirect
and posts nothing. -/
theorem auth_origin_not_allowed (P : Platform) (cfg : Config) (random : Bytes) (q : AuthQuery)
    (raw : JSString)
    (hprovider : q.provider = none ∨ q.provider = some (lit "github"))
    (hraw : orElse q.origin q.site_id = some raw)
    (hreject : isAllowedOrigin P cfg.ORIGINS (normalizeOrigin raw) = false) :
    auth P cfg random q = ⟨[], none, [], Reply.send 400 (lit "Origin not allowed")⟩ := by
  have hp : q.provider.getD (lit "github") = lit "github" := by
    rcases hprovider with h | h <;> simp [h]
  simp only [auth, hp, hraw, hreject, plain]
  simp

/-- Scenario 2: allow-list `["site.example"]`, `GET /auth?origin=https://evil.example`. -/
theorem auth_origin_not_allowed_witness :
    auth (examplePlatform (.threw [])) exampleConfig exampleRandom
        ⟨none, some (lit "https://evil.example"), none, none⟩ =
      ⟨[], none, [], Reply.send 400 (lit "Origin not allowed")⟩ :=
  auth_origin_not_allowed _ _ _ _ (lit "https://evil.example") (Or.inl rfl) (by decide) (by decide)

theorem startsWith_iff (s p : JSString) : startsWith s p = true ↔ ∃ t, s = p ++ t := by
  unfold startsWith
  rw [List.isPrefixOf_iff_prefix]
  constructor
  · rintro ⟨t, ht⟩
    exact ⟨t, ht.symm⟩
  · rintro ⟨t, ht⟩
    exact ⟨t, ht.symm⟩

theorem endsWith_iff (s p : JSString) : endsWith s p = true ↔ ∃ t, s = t ++ p := by
  unfold endsWith
  rw [List.isSuffixOf_iff_suffix]
  constructor
  · rintro ⟨t, ht⟩
    exact ⟨t, ht.symm⟩
  · rintro ⟨t, ht⟩
    exact ⟨t, ht.symm⟩

theorem lit_star_dot : lit "*." = [42, 46] := by decide

theorem lit_dot : lit "." = [46] := by decide

theorem lit_http : lit "http://" = [104, 116, 116, 112, 58, 47, 47] := by decide

theorem lit_https : lit "https://" = [104, 116, 116, 112, 115, 58, 47, 47] := by decide

theorem originMatches_wildcard (host S : JSString) :
    originMatches host (lit "*." ++ S) = endsWith host (lit "." ++ S) := by
  have h1 : startsWith (lit "*." ++ S) (lit "*.") = true := (startsWith_iff _ _).2 ⟨S, rfl⟩
  unfold originMatches
  rw [h1]
  simp [lit_star_dot, lit_dot]

theorem stripScheme_eq_iff (h o : JSString) :
    h = stripScheme o ↔ (h = o ∧ ¬ (∃ t, o = lit "http://" ++ t) ∧ ¬ (∃ t, o = lit "https://" ++ t)) ∨
      o = lit "http://" ++ h ∨ o = lit "https://" ++ h := by
  unfold stripScheme
  by_cases h1 : startsWith o (lit "http://") = true
  · rw [if_pos h1]
    obtain ⟨t, ht⟩ := (startsWith_iff _ _).1 h1
    subst ht
    simp [lit_http, lit_https]
    exact eq_comm
  · rw [if_neg h1]
    have h1n : ¬ ∃ t, o = lit "http://" ++ t := fun hx => h1 ((startsWith_iff _ _).2 hx)
    by_cases h2 : startsWith o (lit "https://") = true
    · rw [if_pos h2]
      obtain ⟨t, ht⟩ := (startsWith_iff _ _).1 h2
      subst ht
      simp [lit_http, lit_https]
      exact eq_comm
    · rw [if_neg h2]
      have h2n : ¬ ∃ t, o = lit "https://" ++ t := fun hx => h2 ((startsWith_iff _ _).2 hx)
      constructor
      · intro e
        exact Or.inl ⟨e, h1n, h2n⟩
      · rintro (⟨e, _, _⟩ | e | e)
        · exact e
        · exact absurd ⟨h, e⟩ h1n
        · exact absurd ⟨h, e⟩ h2n

theorem originMatches_exact (host o : JSString) (hw : startsWith o (lit "*.") = false) :
    originMatches host o = true ↔
      (o ≠ [] ∧ host = o) ∨ o = lit "http://" ++ host ∨ o = lit "https://" ++ host := by
  unfold originMatches
  rw [hw]
  cases o with
  | nil => simp [lit_http, lit_https]
  | cons a t =>
    simp only [List.isEmpty_cons, Bool.false_eq_true, if_false, Bool.or_eq_true, decide_eq_true_eq]
    rw [stripScheme_eq_iff]
    constructor
    · rintro (e | ⟨e, _, _⟩ | e | e)
      · exact Or.inl ⟨by simp, e⟩
      · exact Or.inl ⟨by simp, e⟩
      · exact Or.inr (Or.inl e)
      · exact Or.inr (Or.inr e)
    · rintro (⟨_, e⟩ | e | e)
      · exact Or.inl e
      · exact Or.inr (Or.inr (Or.inl e))
      · exact Or.inr (Or.inr (Or.inr e))

/-- C7, as stated, fails: under the single entry `*.example.com` the candidate
`https://example.com`, whose host is the bare `example.com`, is rejected. -/
theorem wildcard_rejects_bare_domain :
    (examplePlatform (.threw [])).urlHost (lit "https://example.com") = some (lit "example.com") ∧
    ¬ (isAllowedOrigin (examplePlatform (.threw [])) [lit "*." ++ lit "example.com"]
          (lit "https://example.com") = true ↔
        ((∃ t, lit "example.com" = t ++ (lit "." ++ lit "example.com")) ∨
          lit "example.com" = lit "example.com")) := by
  refine ⟨by decide, ?_⟩
  intro h
  have hfalse : isAllowedOrigin (examplePlatform (.threw [])) [lit "*." ++ lit "example.com"]
      (lit "https://example.com") = false := by decide
  rw [hfalse] at h
  exact absurd (h.2 (Or.inr rfl)) (by simp)

/-- C7, amended. Under the single entry `*.S`, a candidate that parses as a URL with host
`h` is allowed exactly when `h` ends with `.S`. -/
theorem wildcard_allows_iff_dotted_suffix (P : Platform) (S candidate h : JSString)
    (hparse : P.urlHost candidate = some h) :
    isAllowedOrigin P [lit "*." ++ S] candidate = true ↔ ∃ t, h = t ++ (lit "." ++ S) := by
  unfold isAllowedOrigin
  rw [hparse]
  simp only [List.any_cons, List.any_nil, Bool.or_false]
  rw [originMatches_wildcard, endsWith_iff]

/-- Under `*.example.com`, `https://a.example.com` is allowed. -/
theorem wildcard_allows_iff_dotted_suffix_witness :
    isAllowedOrigin (examplePlatform (.threw [])) [lit "*." ++ lit "example.com"]
        (lit "https://a.example.com") = true ↔
      ∃ t, lit "a.example.com" = t ++ (lit "." ++ lit "example.com") :=
  wildcard_allows_iff_dotted_suffix _ (lit "example.com") (lit "https://a.example.com")
    (lit "a.example.com") (by decide)

/-- C8, as stated, fails: the entry `https://site.example` does not start with `*.`, and
the candidate `https://site.example` is allowed although its host `site.example` is not
identical to the entry. -/
theorem exact_entry_with_scheme_allows_host :
    startsWith (lit "https://site.example") (lit "*.") = false ∧
    (examplePlatform (.threw [])).urlHost (lit "https://site.example") = some (lit "site.example") ∧
    isAllowedOrigin (examplePlatform (.threw [])) [lit "https://site.example"]
      (lit "https://site.example") = true ∧
    lit "site.example" ∉ [lit "https://site.example"] := by
  decide

/-- C8, amended. When no entry starts with `*.`, a candidate is allowed exactly when it
parses as a URL whose host is identical to a non-empty entry, or to an entry with its
leading `http://` or `https://` removed; a candidate that does not parse is rejected. -/
theorem exact_entries_allow_iff (P : Platform) (ORIGINS : List JSString) (candidate : JSString)
    (hexact : ∀ o ∈ ORIGINS, startsWith o (lit "*.") = false) :
    isAllowedOrigin P ORIGINS candidate = true ↔
      ∃ h, P.urlHost candidate = some h ∧
        ∃ o ∈ ORIGINS, (o ≠ [] ∧ h = o) ∨ o = lit "http://" ++ h ∨ o = lit "https://" ++ h := by
  unfold isAllowedOrigin
  cases hu : P.urlHost candidate with
  | none => simp
  | some host =>
    simp only [List.any_eq_true, Option.some.injEq, exists_eq_left']
    constructor
    · rintro ⟨o, ho, hm⟩
      exact ⟨o, ho, (originMatches_exact host o (hexact o ho)).1 hm⟩
    · rintro ⟨o, ho, hm⟩
      exact ⟨o, ho, (originMatches_exact host o (hexact o ho)).2 hm⟩

/-- Allow-list `["site.example"]`, candidate `https://site.example`. -/
theorem exact_entries_allow_iff_witness :
    isAllowedOrigin (examplePlatform (.threw [])) [lit "site.example"] (lit "https://site.example") = true ↔
      ∃ h, (examplePlatform (.threw [])).urlHost (lit "https://site.example") = some h ∧
        ∃ o ∈ [lit "site.example"],
          (o ≠ [] ∧ h = o) ∨ o = lit "http://" ++ h ∨ o = lit "https://" ++ h :=
  exact_entries_allow_iff _ [lit "site.example"] (lit "https://site.example") (by decide)

theorem includes_iff (s p : JSString) : includes s p = true ↔ ∃ pre post, s = pre ++ p ++ post := by
  induction s with
  | nil =>
    simp only [includes, List.isEmpty_iff]
    constructor
    · intro h
      exact ⟨[], [], by simp [h]⟩
    · rintro ⟨pre, post, h⟩
      have h2 := congrArg List.length h
      simp at h2
      exact List.eq_nil_of_length_eq_zero (by omega)
  | cons u s ih =>
    simp only [includes, Bool.or_eq_true, List.isPrefixOf_iff_prefix, ih]
    constructor
    · rintro (⟨t, ht⟩ | ⟨pre, post, h⟩)
      · exact ⟨[], t, by simp [ht]⟩
      · exact ⟨u :: pre, post, by simp [h]⟩
    · rintro ⟨pre, post, h⟩
      cases pre with
      | nil => exact Or.inl ⟨post, by simpa using h.symm⟩
      | cons a pre =>
        simp only [List.cons_append, List.cons.injEq] at h
        exact Or.inr ⟨pre, post, h.2⟩

theorem callback_after_checks (P : Platform) (cfg : Config) (code state : JSString)
    (parsed origin : JSON) (hcode : code ≠ []) (hstate : state ≠ [])
    (hdecode : decodeState state = some parsed) (horigin : originOf P parsed = some origin)
    (htruthy : truthy P origin = true)
    (hallowed : isAllowedOrigin P cfg.ORIGINS (toJSString P origin) = true) :
    callback P cfg ⟨some code, some state, some state⟩ =
      afterExchange P [tokenRequestBody cfg code] (P.exchange (tokenRequestBody cfg code)) := by
  have h1 := strTruthy_of_ne_nil code hcode
  have h2 := strTruthy_of_ne_nil state hstate
  simp [callback, h1, h2, hdecode, horigin, htruthy, hallowed]

theorem exampleToken_decodes :
    decodeState exampleToken =
      some (JSON.obj [(lit "csrf", JSON.str (hexEncode exampleRandom)),
        (lit "origin", JSON.str (lit "https://site.example"))]) := by
  rfl

/-- C9, as stated, fails: for the access token `ghp_xyz` the response is the 200 page, and
its body does not contain the text
`authorization:github:success:` followed by the unescaped JSON of the token object. -/
theorem success_page_lacks_unescaped_message :
    callback (examplePlatform (.returned tokenResponse))
        exampleConfig ⟨some (lit "abc123"), some exampleToken, some exampleToken⟩ =
      ⟨[], some (lit "text/html; charset=utf-8"), [tokenRequestBody exampleConfig (lit "abc123")],
        Reply.send 200 (successHtml (successMessage (examplePlatform (.returned tokenResponse))
          (JSON.str (lit "ghp_xyz"))))⟩ ∧
    ¬ ∃ pre post, successHtml (successMessage (examplePlatform (.returned tokenResponse)) (JSON.str (lit "ghp_xyz"))) =
      pre ++ lit "authorization:github:success:\x7b\"token\":\"ghp_xyz\",\"provider\":\"github\"\x7d" ++ post := by
  refine ⟨by decide, ?_⟩
  rw [← includes_iff]
  decide

/-- C9, amended. When the callback passes the CSRF gate, the state decodes to an allowed
origin and the exchange returns a non-empty string `t` as `access_token`, the response
has status 200 and content type `text/html; charset=utf-8`, and its body contains the
JavaScript string literal of the message: the JSON string form, quotes escaped, of
`authorization:github:success:` followed by the JSON text of the token object. -/
theorem success_page_content (P : Platform) (cfg : Config) (code state t : JSString)
    (parsed origin tokenData : JSON) (hcode : code ≠ []) (hstate : state ≠ [])
    (hdecode : decodeState state = some parsed) (horigin : originOf P parsed = some origin)
    (htruthy : truthy P origin = true)
    (hallowed : isAllowedOrigin P cfg.ORIGINS (toJSString P origin) = true)
    (hexchange : P.exchange (tokenRequestBody cfg code) = ExchangeResult.returned tokenData)
    (htoken : getProp tokenData (lit "access_token") = some (JSON.str t)) (ht : t ≠ []) :
    ∃ body, callback P cfg ⟨some code, some state, some state⟩ =
        ⟨[], some (lit "text/html; charset=utf-8"), [tokenRequestBody cfg code],
          Reply.send 200 body⟩ ∧
      ∃ pre post, body = pre ++
        quote (lit "authorization:github:success:" ++
          (lit "\x7b\"token\":" ++ quote t ++ lit ",\"provider\":\"github\"\x7d")) ++ post := by
  rw [callback_after_checks P cfg code state parsed origin hcode hstate hdecode horigin htruthy
    hallowed, hexchange]
  have hnn : tokenData ≠ JSON.null := by
    intro h
    rw [h] at htoken
    simp [getProp] at htoken
  have hq : quote (lit "github") = lit "\"github\"" := by decide
  refine ⟨successHtml (successMessage P (JSON.str t)), ?_, pageHead "Auth Complete" "message to main window with the app", pageTail "message" "complete", ?_⟩
  · cases tokenData with
    | null => exact absurd rfl hnn
    | _ => simp [afterExchange, htoken, truthy, strTruthy_of_ne_nil t ht]
  · have h1 : lit "\x7b\"token\":" = 123 :: quote (lit "token") ++ [58] := by decide
    have h2 : lit ",\"provider\":\"github\"\x7d" = 44 :: quote (lit "provider") ++ 58 :: (quote (lit "github") ++ [125]) := by
      decide
    simp only [successHtml, successMessage, stringify, stringifyProps, h1, h2]
    simp

/-- Scenario 3: the exchange returns the access token `ghp_xyz`. -/
theorem success_page_content_witness :
    ∃ body, callback (examplePlatform (.returned tokenResponse))
        exampleConfig ⟨some (lit "abc123"), some exampleToken, some exampleToken⟩ =
        ⟨[], some (lit "text/html; charset=utf-8"), [tokenRequestBody exampleConfig (lit "abc123")],
          Reply.send 200 body⟩ ∧
      ∃ pre post, body = pre ++
        quote (lit "authorization:github:success:" ++
          (lit "\x7b\"token\":" ++ quote (lit "ghp_xyz") ++ lit ",\"provider\":\"github\"\x7d")) ++ post :=
  success_page_content _ exampleConfig (lit "abc123") exampleToken (lit "ghp_xyz") _
    (JSON.str (lit "https://site.example")) _ (by decide) (by decide) exampleToken_decodes
    (by rfl) (by rfl) (by decide) rfl (by rfl) (by decide)

/-- C10. At the exchange outcome `null`, a JSON value without an `access_token` field, for
which the 400 "Failed to obtain access token" is due, the handler reads
`tokenData.access_token` without a guard, the read throws inside the `try` block, and the
response is the 500 error page carrying the text of the `TypeError`. -/
theorem null_token_response_is_500 :
    getProp JSON.null (lit "access_token") = none ∧
    callback (examplePlatform (.returned JSON.null)) exampleConfig
        ⟨some (lit "abc123"), some exampleToken, some exampleToken⟩ =
      ⟨[], some (lit "text/html; charset=utf-8"), [tokenRequestBody exampleConfig (lit "abc123")],
        Reply.send 500 (errorHtml (errorMessage
          (lit "Cannot read properties of null (reading \x27access_token\x27)")))⟩ := by
  refine ⟨rfl, ?_⟩
  rw [callback_after_checks _ exampleConfig (lit "abc123") exampleToken _
    (JSON.str (lit "https://site.example")) (by decide) (by decide) exampleToken_decodes
    (by rfl) (by rfl) (by decide)]
  rfl

/-- The 400 of a missing token on the values for which the read of `access_token` does
not throw: when the callback passes the CSRF gate and the origin check and the exchange
returns an object, an array or a primitive other than `null` that has no `access_token`
field, or a falsy one (such as the empty string), the response is 400 with body
"Failed to obtain access token". -/
theorem missing_token_is_400 (P : Platform) (cfg : Config) (code state : JSString)
    (parsed origin tokenData : JSON) (hcode : code ≠ []) (hstate : state ≠ [])
    (hdecode : decodeState state = some parsed) (horigin : originOf P parsed = some origin)
    (htruthy : truthy P origin = true)
    (hallowed : isAllowedOrigin P cfg.ORIGINS (toJSString P origin) = true)
    (hexchange : P.exchange (tokenRequestBody cfg code) = ExchangeResult.returned tokenData)
    (hnotnull : tokenData ≠ JSON.null)
    (htoken : getProp tokenData (lit "access_token") = none ∨
      ∃ t, getProp tokenData (lit "access_token") = some t ∧ truthy P t = false) :
    callback P cfg ⟨some code, some state, some state⟩ =
      ⟨[], none, [tokenRequestBody cfg code], Reply.send 400 (lit "Failed to obtain access token")⟩ := by
  rw [callback_after_checks P cfg code state parsed origin hcode hstate hdecode horigin htruthy
    hallowed, hexchange]
  rcases htoken with h | ⟨t, h, hf⟩
  · cases tokenData with
    | null => exact absurd rfl hnotnull
    | _ => simp [afterExchange, h]
  · cases tokenData with
    | null => exact absurd rfl hnotnull
    | _ => simp [afterExchange, h, hf]

/-- Scenario 5: the exchange answers with an error object and no `access_token`. -/
theorem missing_token_is_400_witness :
    callback (examplePlatform (.returned (JSON.obj [(lit "error", JSON.str (lit "bad_verification_code"))])))
        exampleConfig ⟨some (lit "abc123"), some exampleToken, some exampleToken⟩ =
      ⟨[], none, [tokenRequestBody exampleConfig (lit "abc123")],
        Reply.send 400 (lit "Failed to obtain access token")⟩ :=
  missing_token_is_400 _ exampleConfig (lit "abc123") exampleToken _
    (JSON.str (lit "https://site.example")) _ (by decide) (by decide) exampleToken_decodes
    (by rfl) (by rfl) (by decide) rfl (by simp) (Or.inl (by rfl))

theorem unbase64_base64urlChar (v : Nat) (h : v < 64) : unbase64 (base64urlChar v) = some v := by
  unfold base64urlChar unbase64
  split_ifs <;> (try simp) <;> omega

theorem base64urlChar_ne_pad (v : Nat) (h : v < 64) : base64urlChar v ≠ 61 := by
  unfold base64urlChar
  split_ifs <;> omega

theorem base64urlChar_mod (v : Nat) : base64urlChar v % 256 = base64urlChar v := by
  unfold base64urlChar
  split_ifs <;> omega

theorem sextets_cons_char (v : Nat) (h : v < 64) (rest : JSString) :
    sextets (base64urlChar v :: rest) = v :: sextets rest := by
  simp [sextets, base64urlChar_mod v, base64urlChar_ne_pad v h, unbase64_base64urlChar v h]

theorem base64urlDecode_low_byte :
    base64urlDecode [97, 98, 321, 99, 100] = [105, 176, 28] ∧
    base64urlDecode [97, 98, 317, 99, 100] = [105] ∧
    base64urlDecode [97, 98, 33, 99, 100] = [105, 183, 29] := by
  decide

theorem base64url_roundtrip (bs : Bytes) (h : ∀ b ∈ bs, b < 256) :
    base64urlDecode (base64urlEncode bs) = bs := by
  unfold base64urlDecode
  induction bs using base64urlEncode.induct with
  | case1 => rfl
  | case2 a =>
    have ha : a < 256 := h a (by simp)
    simp only [base64urlEncode]
    rw [sextets_cons_char _ (by omega), sextets_cons_char _ (by omega)]
    simp only [sextets, packSextets]
    congr 1
    omega
  | case3 a b =>
    have ha : a < 256 := h a (by simp)
    have hb : b < 256 := h b (by simp)
    simp only [base64urlEncode]
    rw [sextets_cons_char _ (by omega), sextets_cons_char _ (by omega), sextets_cons_char _ (by omega)]
    simp only [sextets, packSextets]
    congr 1
    · omega
    · congr 1
      omega
  | case4 a b c rest ih =>
    have ha : a < 256 := h a (by simp)
    have hb : b < 256 := h b (by simp)
    have hc : c < 256 := h c (by simp)
    have hr : ∀ x ∈ rest, x < 256 := fun x hx => h x (by simp [hx])
    simp only [base64urlEncode]
    rw [sextets_cons_char _ (by omega), sextets_cons_char _ (by omega), sextets_cons_char _ (by omega),
      sextets_cons_char _ (by omega)]
    simp only [packSextets]
    rw [ih hr]
    congr 1
    · omega
    · congr 1
      · omega
      · congr 1
        omega

theorem wellFormed_append {a b : JSString} (ha : WellFormed a) (hb : WellFormed b) :
    WellFormed (a ++ b) := by
  induction ha with
  | nil => exact hb
  | unit u s h1 h2 h3 _ ih => exact WellFormed.unit u _ h1 h2 h3 ih
  | pair h l s h1 h2 _ ih => exact WellFormed.pair h l _ h1 h2 ih

theorem isHighSurrogate_iff (u : Nat) : isHighSurrogate u = true ↔ 55296 ≤ u ∧ u < 56320 := by
  simp only [isHighSurrogate, Bool.and_eq_true, decide_eq_true_eq]

theorem isLowSurrogate_iff (u : Nat) : isLowSurrogate u = true ↔ 56320 ≤ u ∧ u < 57344 := by
  simp only [isLowSurrogate, Bool.and_eq_true, decide_eq_true_eq]

theorem not_surrogate_iff (u : Nat) :
    (isHighSurrogate u = false ∧ isLowSurrogate u = false) ↔ ¬ (55296 ≤ u ∧ u < 57344) := by
  simp only [isHighSurrogate, isLowSurrogate, Bool.and_eq_false_iff, decide_eq_false_iff_not]
  omega

theorem utf8Encode_unit (u : Nat) (s : JSString) (h2 : isHighSurrogate u = false)
    (h3 : isLowSurrogate u = false) : utf8Encode (u :: s) = utf8EncodeCodePoint u ++ utf8Encode s := by
  cases s with
  | nil => simp [utf8Encode, utf8EncodeUnit, h2, h3]
  | cons l rest => simp [utf8Encode, utf8EncodeUnit, h2, h3]

theorem utf8Encode_pair (h l : Nat) (s : JSString) (h1 : isHighSurrogate h = true)
    (h2 : isLowSurrogate l = true) :
    utf8Encode (h :: l :: s) =
      utf8EncodeCodePoint (65536 + (h - 55296) * 1024 + (l - 56320)) ++ utf8Encode s := by
  simp [utf8Encode, h1, h2]

theorem utf8DecodeFrom_idle_cons (b : Nat) (rest : Bytes) :
    utf8DecodeFrom Utf8State.idle (b :: rest) =
      (utf8Lead b).1.toList ++ utf8DecodeFrom (utf8Lead b).2 rest := by
  simp [utf8DecodeFrom, Utf8State.idle]

theorem utf8DecodeFrom_last (cp lo hi b : Nat) (rest : Bytes) (h : lo ≤ b ∧ b ≤ hi) :
    utf8DecodeFrom ⟨1, cp, lo, hi⟩ (b :: rest) =
      (cp * 64 + (b - 128)) :: utf8DecodeFrom Utf8State.idle rest := by
  simp [utf8DecodeFrom, h]

theorem utf8DecodeFrom_more (n cp lo hi b : Nat) (rest : Bytes) (h : lo ≤ b ∧ b ≤ hi) :
    utf8DecodeFrom ⟨n + 2, cp, lo, hi⟩ (b :: rest) =
      utf8DecodeFrom ⟨n + 1, cp * 64 + (b - 128), 128, 191⟩ rest := by
  simp [utf8DecodeFrom, h]

theorem utf8Lead_ascii (b : Nat) (h : b < 128) : utf8Lead b = (some b, Utf8State.idle) := by
  simp [utf8Lead, h]

theorem utf8Lead_two (b : Nat) (h : 194 ≤ b ∧ b ≤ 223) :
    utf8Lead b = (none, ⟨1, b - 192, 128, 191⟩) := by
  have h1 : ¬ b < 128 := by omega
  simp [utf8Lead, h, h1]

theorem utf8Lead_three (b : Nat) (h : 224 ≤ b ∧ b ≤ 239) :
    utf8Lead b =
      (none, ⟨2, b - 224, if b = 224 then 160 else 128, if b = 237 then 159 else 191⟩) := by
  have h1 : ¬ b < 128 := by omega
  have h2 : ¬ (194 ≤ b ∧ b ≤ 223) := by omega
  simp [utf8Lead, h, h1, h2]

theorem utf8Lead_four (b : Nat) (h : 240 ≤ b ∧ b ≤ 244) :
    utf8Lead b =
      (none, ⟨3, b - 240, if b = 240 then 144 else 128, if b = 244 then 143 else 191⟩) := by
  have h1 : ¬ b < 128 := by omega
  have h2 : ¬ (194 ≤ b ∧ b ≤ 223) := by omega
  have h3 : ¬ (224 ≤ b ∧ b ≤ 239) := by omega
  simp [utf8Lead, h, h1, h2, h3]

theorem utf8DecodeFrom_codePoint (cp : Nat) (rest : Bytes) (h : cp < 1114112)
    (hs : ¬ (55296 ≤ cp ∧ cp < 57344)) :
    utf8DecodeFrom Utf8State.idle (utf8EncodeCodePoint cp ++ rest) =
      cp :: utf8DecodeFrom Utf8State.idle rest := by
  unfold utf8EncodeCodePoint
  split_ifs with c1 c2 c3
  · simp only [List.cons_append, List.nil_append]
    rw [utf8DecodeFrom_idle_cons, utf8Lead_ascii _ c1]
    rfl
  · simp only [List.cons_append, List.nil_append]
    rw [utf8DecodeFrom_idle_cons, utf8Lead_two _ (by omega), utf8DecodeFrom_last _ _ _ _ _ (by omega)]
    simp only [Option.toList, List.nil_append]
    congr 1
    omega
  · simp only [List.cons_append, List.nil_append]
    rw [utf8DecodeFrom_idle_cons, utf8Lead_three _ (by omega),
      utf8DecodeFrom_more 0 _ _ _ _ _ (by split_ifs <;> omega),
      utf8DecodeFrom_last _ _ _ _ _ (by omega)]
    simp only [Option.toList, List.nil_append]
    congr 1
    omega
  · simp only [List.cons_append, List.nil_append]
    rw [utf8DecodeFrom_idle_cons, utf8Lead_four _ (by omega),
      utf8DecodeFrom_more 1 _ _ _ _ _ (by split_ifs <;> omega),
      utf8DecodeFrom_more 0 _ _ _ _ _ (by omega),
      utf8DecodeFrom_last _ _ _ _ _ (by omega)]
    simp only [Option.toList, List.nil_append]
    congr 1
    omega

theorem utf8_roundtrip (s : JSString) (h : WellFormed s) : utf8Decode (utf8Encode s) = s := by
  unfold utf8Decode
  induction h with
  | nil => rfl
  | unit u s h1 h2 h3 _ ih =>
    have hns := (not_surrogate_iff u).1 ⟨h2, h3⟩
    rw [utf8Encode_unit u s h2 h3, utf8DecodeFrom_codePoint u _ (by omega) hns]
    rw [List.flatMap_cons, ih]
    unfold utf16OfCodePoint
    rw [if_pos h1]
    simp
  | pair hi lo s h1 h2 _ ih =>
    rw [utf8Encode_pair hi lo s h1 h2]
    rw [isHighSurrogate_iff] at h1
    rw [isLowSurrogate_iff] at h2
    rw [utf8DecodeFrom_codePoint _ _ (by omega) (by omega)]
    rw [List.flatMap_cons, ih]
    unfold utf16OfCodePoint
    rw [if_neg (by omega)]
    have e1 : 55296 + (65536 + (hi - 55296) * 1024 + (lo - 56320) - 65536) / 1024 = hi := by omega
    have e2 : 56320 + (65536 + (hi - 55296) * 1024 + (lo - 56320) - 65536) % 1024 = lo := by omega
    rw [e1, e2]
    rfl

theorem utf8EncodeCodePoint_lt (cp : Nat) (h : cp < 1114112) :
    ∀ b ∈ utf8EncodeCodePoint cp, b < 256 := by
  unfold utf8EncodeCodePoint
  split_ifs <;> simp <;> omega

theorem utf8Encode_lt (s : JSString) (h : WellFormed s) : ∀ b ∈ utf8Encode s, b < 256 := by
  induction h with
  | nil => simp [utf8Encode]
  | unit u s h1 h2 h3 _ ih =>
    rw [utf8Encode_unit u s h2 h3]
    intro b hb
    rcases List.mem_append.1 hb with hb | hb
    · exact utf8EncodeCodePoint_lt u (by omega) b hb
    · exact ih b hb
  | pair hi lo s h1 h2 _ ih =>
    rw [utf8Encode_pair hi lo s h1 h2]
    rw [isHighSurrogate_iff] at h1
    rw [isLowSurrogate_iff] at h2
    intro b hb
    rcases List.mem_append.1 hb with hb | hb
    · exact utf8EncodeCodePoint_lt _ (by omega) b hb
    · exact ih b hb

theorem hexValue_hexDigit (d : Nat) (h : d < 16) : hexValue (hexDigit d) = some d := by
  unfold hexDigit hexValue
  split_ifs <;> (try simp) <;> omega

theorem parseStringBody_plain (u : Nat) (rest : List Nat) (h1 : u ≠ 34) (h2 : ¬ u < 32) (h3 : u ≠ 92) :
    parseStringBody (u :: rest) = (parseStringBody rest).map (fun p => (u :: p.1, p.2)) := by
  rw [parseStringBody.eq_def]
  simp only [h1, h2, h3, if_false]

theorem parseStringBody_escape (e v : Nat) (rest : List Nat) (h1 : e ≠ 117) (h2 : unescape e = some v) :
    parseStringBody (92 :: e :: rest) = (parseStringBody rest).map (fun p => (v :: p.1, p.2)) := by
  rw [parseStringBody.eq_def]
  simp [h1, h2]

theorem parseStringBody_unicodeEscape (u : Nat) (rest : List Nat) (h : u < 65536) :
    parseStringBody (unicodeEscape u ++ rest) = (parseStringBody rest).map (fun p => (u :: p.1, p.2)) := by
  have e : u / 4096 % 16 * 4096 + u / 256 % 16 * 256 + u / 16 % 16 * 16 + u % 16 = u := by omega
  simp only [unicodeEscape, List.cons_append, List.nil_append]
  rw [parseStringBody.eq_def]
  simp only [show (92 : Nat) ≠ 34 by decide, show ¬ (92 : Nat) < 32 by decide, if_false, if_true]
  rw [hexValue_hexDigit _ (by omega), hexValue_hexDigit _ (by omega), hexValue_hexDigit _ (by omega),
    hexValue_hexDigit _ (by omega)]
  simp [e]

theorem parseStringBody_close (rest : List Nat) : parseStringBody (34 :: rest) = some ([], rest) := by
  rw [parseStringBody.eq_def]
  simp

theorem parseStringBody_quoteUnit (u : Nat) (rest : List Nat) (h : u < 65536) :
    parseStringBody (quoteUnit u ++ rest) = (parseStringBody rest).map (fun p => (u :: p.1, p.2)) := by
  unfold quoteUnit
  split_ifs with c1 c2 c3 c4 c5 c6 c7 c8
  · subst c1
    exact parseStringBody_escape 98 8 rest (by decide) (by decide)
  · subst c2
    exact parseStringBody_escape 116 9 rest (by decide) (by decide)
  · subst c3
    exact parseStringBody_escape 110 10 rest (by decide) (by decide)
  · subst c4
    exact parseStringBody_escape 102 12 rest (by decide) (by decide)
  · subst c5
    exact parseStringBody_escape 114 13 rest (by decide) (by decide)
  · subst c6
    exact parseStringBody_escape 34 34 rest (by decide) (by decide)
  · subst c7
    exact parseStringBody_escape 92 92 rest (by decide) (by decide)
  · exact parseStringBody_unicodeEscape u rest h
  · have c9 : ¬ u < 32 := by
      intro hlt
      apply c8
      simp [hlt]
    exact parseStringBody_plain u rest c6 c9 c7

theorem parseStringBody_quoteBody (s : JSString) (rest : List Nat) (h : IsJSString s) :
    parseStringBody (quoteBody s ++ 34 :: rest) = some (s, rest) := by
  induction s using quoteBody.induct with
  | case1 => simp [quoteBody, parseStringBody_close]
  | case2 u =>
    simp only [quoteBody]
    rw [parseStringBody_quoteUnit u _ (h u (by simp)), parseStringBody_close]
    rfl
  | case3 u l t hp ih =>
    have hu : u < 65536 := h u (by simp)
    have hl : l < 65536 := h l (by simp)
    have ht : IsJSString t := fun x hx => h x (by simp [hx])
    simp only [Bool.and_eq_true] at hp
    have h1 := (isHighSurrogate_iff u).1 hp.1
    have h2 := (isLowSurrogate_iff l).1 hp.2
    simp only [quoteBody, hp.1, hp.2, Bool.and_self, if_true, List.cons_append]
    rw [parseStringBody_plain u _ (by omega) (by omega) (by omega),
      parseStringBody_plain l _ (by omega) (by omega) (by omega), ih ht]
    rfl
  | case4 u l t hp ih =>
    have hu : u < 65536 := h u (by simp)
    have ht : IsJSString (l :: t) := fun x hx => h x (by simp [hx])
    simp only [quoteBody, hp, if_false, List.append_assoc, Bool.false_eq_true]
    rw [parseStringBody_quoteUnit u _ hu, ih ht]
    rfl

theorem wellFormed_of_ascii (s : JSString) (h : ∀ u ∈ s, u < 128) : WellFormed s := by
  induction s with
  | nil => exact WellFormed.nil
  | cons u t ih =>
    have hu : u < 128 := h u (by simp)
    have hn := (not_surrogate_iff u).2 (by omega)
    exact WellFormed.unit u t (by omega) hn.1 hn.2 (ih (fun x hx => h x (by simp [hx])))

theorem hexDigit_lt (d : Nat) (h : d < 16) : hexDigit d < 128 := by
  unfold hexDigit
  split_ifs <;> omega

theorem wellFormed_quoteUnit (u : Nat) (h : u < 65536) : WellFormed (quoteUnit u) := by
  unfold quoteUnit
  split_ifs with c1 c2 c3 c4 c5 c6 c7 c8
  iterate 7 exact wellFormed_of_ascii _ (by decide)
  · apply wellFormed_of_ascii
    intro x hx
    simp only [unicodeEscape, List.mem_cons, List.mem_singleton, List.not_mem_nil, or_false] at hx
    rcases hx with e | e | e | e | e | e
    · omega
    · omega
    · exact e ▸ hexDigit_lt _ (by omega)
    · exact e ▸ hexDigit_lt _ (by omega)
    · exact e ▸ hexDigit_lt _ (by omega)
    · exact e ▸ hexDigit_lt _ (by omega)
  · simp only [Bool.or_eq_true, decide_eq_true_eq, not_or, Bool.not_eq_true] at c8
    exact WellFormed.unit u [] h c8.1.2 c8.2 WellFormed.nil

theorem wellFormed_quoteBody (s : JSString) (h : IsJSString s) : WellFormed (quoteBody s) := by
  induction s using quoteBody.induct with
  | case1 => exact WellFormed.nil
  | case2 u => exact wellFormed_quoteUnit u (h u (by simp))
  | case3 u l t hp ih =>
    simp only [Bool.and_eq_true] at hp
    simp only [quoteBody, hp.1, hp.2, Bool.and_self, if_true]
    exact WellFormed.pair u l _ hp.1 hp.2 (ih (fun x hx => h x (by simp [hx])))
  | case4 u l t hp ih =>
    simp only [quoteBody, hp, if_false, Bool.false_eq_true]
    exact wellFormed_append (wellFormed_quoteUnit u (h u (by simp)))
      (ih (fun x hx => h x (by simp [hx])))

theorem wellFormed_cons_ascii (u : Nat) (s : JSString) (hu : u < 128) (hs : WellFormed s) :
    WellFormed (u :: s) :=
  wellFormed_append (wellFormed_of_ascii [u] (by simpa using hu)) hs

theorem quote_append (s rest : JSString) : quote s ++ rest = 34 :: (quoteBody s ++ 34 :: rest) := by
  simp [quote]

theorem wellFormed_quote_append (s rest : JSString) (h : IsJSString s) (hr : WellFormed rest) :
    WellFormed (quote s ++ rest) := by
  rw [quote_append]
  exact wellFormed_cons_ascii 34 _ (by decide)
    (wellFormed_append (wellFormed_quoteBody s h) (wellFormed_cons_ascii 34 _ (by decide) hr))

theorem skipWs_cons (u : Nat) (rest : List Nat) (h : isJSONWhitespace u = false) :
    skipWs (u :: rest) = u :: rest := by
  simp [skipWs, h]

theorem parseValue_string (fuel : Nat) (s rest : JSString) (h : IsJSString s) :
    parseValue (fuel + 1) (quote s ++ rest) = some (JSON.str s, rest) := by
  rw [quote_append, parseValue, skipWs_cons _ _ (by decide)]
  simp [parseStringBody_quoteBody s rest h]

theorem parseMembers_more (fuel : Nat) (key val rest : JSString) (acc : List (JSString × JSON))
    (hk : IsJSString key) (hv : IsJSString val) :
    parseMembers (fuel + 2) (quote key ++ 58 :: (quote val ++ 44 :: rest)) acc =
      parseMembers (fuel + 1) rest (setProp acc key (JSON.str val)) := by
  rw [quote_append, parseMembers, skipWs_cons _ _ (by decide)]
  simp only [if_true, parseStringBody_quoteBody key _ hk]
  rw [skipWs_cons _ _ (by decide)]
  simp only [if_true, parseValue_string fuel val _ hv]
  rw [skipWs_cons _ _ (by decide)]
  simp

theorem parseMembers_last (fuel : Nat) (key val rest : JSString) (acc : List (JSString × JSON))
    (hk : IsJSString key) (hv : IsJSString val) :
    parseMembers (fuel + 2) (quote key ++ 58 :: (quote val ++ 125 :: rest)) acc =
      some (JSON.obj (setProp acc key (JSON.str val)), rest) := by
  rw [quote_append, parseMembers, skipWs_cons _ _ (by decide)]
  simp only [if_true, parseStringBody_quoteBody key _ hk]
  rw [skipWs_cons _ _ (by decide)]
  simp only [if_true, parseValue_string fuel val _ hv]
  rw [skipWs_cons _ _ (by decide)]
  simp

theorem isJSString_lit_csrf : IsJSString (lit "csrf") := by
  intro u hu
  have h : lit "csrf" = [99, 115, 114, 102] := by decide
  rw [h] at hu
  simp at hu
  omega

theorem isJSString_lit_origin : IsJSString (lit "origin") := by
  intro u hu
  have h : lit "origin" = [111, 114, 105, 103, 105, 110] := by decide
  rw [h] at hu
  simp at hu
  omega

/-- The JSON text of the state object `{ csrf, origin }`. -/
theorem stringify_state (csrf origin : JSString) :
    stringify id (JSON.obj [(lit "csrf", JSON.str csrf), (lit "origin", JSON.str origin)]) =
      123 :: (quote (lit "csrf") ++ 58 :: (quote csrf ++ 44 ::
        (quote (lit "origin") ++ 58 :: (quote origin ++ [125])))) := by
  simp [stringify, stringifyProps]

theorem wellFormed_state (csrf origin : JSString) (hc : IsJSString csrf) (ho : IsJSString origin) :
    WellFormed (stringify id (JSON.obj [(lit "csrf", JSON.str csrf), (lit "origin", JSON.str origin)])) := by
  rw [stringify_state]
  refine wellFormed_cons_ascii 123 _ (by decide) ?_
  refine wellFormed_quote_append _ _ isJSString_lit_csrf ?_
  refine wellFormed_cons_ascii 58 _ (by decide) ?_
  refine wellFormed_quote_append _ _ hc ?_
  refine wellFormed_cons_ascii 44 _ (by decide) ?_
  refine wellFormed_quote_append _ _ isJSString_lit_origin ?_
  refine wellFormed_cons_ascii 58 _ (by decide) ?_
  exact wellFormed_quote_append _ _ ho (wellFormed_of_ascii [125] (by decide))

theorem jsonParse_state (csrf origin : JSString) (hc : IsJSString csrf) (ho : IsJSString origin) :
    jsonParse (stringify id (JSON.obj [(lit "csrf", JSON.str csrf), (lit "origin", JSON.str origin)])) =
      some (JSON.obj [(lit "csrf", JSON.str csrf), (lit "origin", JSON.str origin)]) := by
  rw [stringify_state]
  unfold jsonParse
  obtain ⟨k, hk⟩ : ∃ k, 2 * (123 :: (quote (lit "csrf") ++ 58 :: (quote csrf ++ 44 ::
        (quote (lit "origin") ++ 58 :: (quote origin ++ [125]))))).length + 2 = k + 4 := by
    refine ⟨2 * (quote (lit "csrf") ++ 58 :: (quote csrf ++ 44 ::
        (quote (lit "origin") ++ 58 :: (quote origin ++ [125])))).length, ?_⟩
    simp only [List.length_cons]
    omega
  rw [hk, parseValue, skipWs_cons _ _ (by decide)]
  simp only [show (123 : Nat) ≠ 34 by decide, show (123 : Nat) ≠ 91 by decide, if_false, if_true]
  rw [quote_append, skipWs_cons _ _ (by decide)]
  simp only [show (34 : Nat) ≠ 125 by decide, if_false]
  rw [← quote_append, parseMembers_more _ _ _ _ _ isJSString_lit_csrf hc,
    parseMembers_last _ _ _ _ _ isJSString_lit_origin ho]
  have hs : setProp (setProp [] (lit "csrf") (JSON.str csrf)) (lit "origin") (JSON.str origin) =
      [(lit "csrf", JSON.str csrf), (lit "origin", JSON.str origin)] := by
    have h1 : arrayIndex (lit "csrf") = none := by decide
    have h2 : arrayIndex (lit "origin") = none := by decide
    have h3 : (lit "csrf" = lit "origin") = False := by
      simp only [eq_iff_iff, iff_false]
      decide
    simp [setProp, h1, h2, h3]
  simp [hs, skipWs]

theorem decodeState_encodeState (csrf origin : JSString) (hc : IsJSString csrf) (ho : IsJSString origin) :
    decodeState (encodeState csrf origin) =
      some (JSON.obj [(lit "csrf", JSON.str csrf), (lit "origin", JSON.str origin)]) := by
  unfold decodeState encodeState
  rw [base64url_roundtrip _ (utf8Encode_lt _ (wellFormed_state csrf origin hc ho)),
    utf8_roundtrip _ (wellFormed_state csrf origin hc ho), jsonParse_state csrf origin hc ho]

theorem upperHexDigit_range (d : Nat) (h : d < 16) :
    48 ≤ upperHexDigit d ∧ upperHexDigit d ≤ 70 ∧ (upperHexDigit d ≤ 57 ∨ 65 ≤ upperHexDigit d) := by
  unfold upperHexDigit
  split_ifs <;> omega

theorem hexValue_upperHexDigit (d : Nat) (h : d < 16) : hexValue (upperHexDigit d) = some d := by
  unfold upperHexDigit hexValue
  split_ifs <;> (try simp) <;> omega

theorem formEncodeByte_safe (b : Nat) :
    ∀ u ∈ formEncodeByte b, u < 128 ∧ u ≠ 38 ∧ u ≠ 61 ∧ u ≠ 35 := by
  have h1 := upperHexDigit_range (b / 16 % 16) (by omega)
  have h2 := upperHexDigit_range (b % 16) (by omega)
  unfold formEncodeByte
  split_ifs with c1 c2
  · intro u hu
    simp only [List.mem_singleton] at hu
    omega
  · intro u hu
    simp only [List.mem_singleton] at hu
    omega
  · intro u hu
    simp only [List.mem_cons, List.mem_singleton, List.not_mem_nil, or_false] at hu
    generalize upperHexDigit (b / 16 % 16) = x at h1 hu
    generalize upperHexDigit (b % 16) = y at h2 hu
    rcases hu with e | e | e <;> omega

theorem formEncode_safe (s : JSString) : ∀ u ∈ formEncode s, u < 128 ∧ u ≠ 38 ∧ u ≠ 61 ∧ u ≠ 35 := by
  intro u hu
  unfold formEncode at hu
  rw [List.mem_flatMap] at hu
  obtain ⟨b, _, hb⟩ := hu
  exact formEncodeByte_safe b u hb

theorem utf8Encode_ascii (s : JSString) (h : ∀ u ∈ s, u < 128) : utf8Encode s = s := by
  induction s with
  | nil => rfl
  | cons u t ih =>
    have hu : u < 128 := h u (by simp)
    have hn := (not_surrogate_iff u).2 (by omega)
    rw [utf8Encode_unit u t hn.1 hn.2, ih (fun x hx => h x (by simp [hx]))]
    simp [utf8EncodeCodePoint, hu]

theorem splitOn_of_not_mem (sep : Nat) (a : List Nat) (h : sep ∉ a) : splitOn sep a = [a] := by
  induction a with
  | nil => rfl
  | cons u t ih =>
    have hu : u ≠ sep := fun e => h (by simp [e])
    have ht : sep ∉ t := fun e => h (by simp [e])
    simp [splitOn, hu, ih ht]

theorem splitOn_append (sep : Nat) (a b : List Nat) (h : sep ∉ a) :
    splitOn sep (a ++ sep :: b) = a :: splitOn sep b := by
  induction a with
  | nil => simp [splitOn]
  | cons u t ih =>
    have hu : u ≠ sep := fun e => h (by simp [e])
    have ht : sep ∉ t := fun e => h (by simp [e])
    simp [splitOn, hu, ih ht]

theorem takeWhile_ne_append (sep : Nat) (a b : List Nat) (h : sep ∉ a) :
    (a ++ sep :: b).takeWhile (fun u => u != sep) = a := by
  induction a with
  | nil => simp [List.takeWhile]
  | cons u t ih =>
    have hu : u ≠ sep := fun e => h (by simp [e])
    have ht : sep ∉ t := fun e => h (by simp [e])
    have hb : (u != sep) = true := by simp [hu]
    simp [List.takeWhile, hb, ih ht]

theorem dropWhile_ne_append (sep : Nat) (a b : List Nat) (h : sep ∉ a) :
    (a ++ sep :: b).dropWhile (fun u => u != sep) = sep :: b := by
  induction a with
  | nil => simp [List.dropWhile]
  | cons u t ih =>
    have hu : u ≠ sep := fun e => h (by simp [e])
    have ht : sep ∉ t := fun e => h (by simp [e])
    have hb : (u != sep) = true := by simp [hu]
    simp [List.dropWhile, hb, ih ht]

theorem takeWhile_ne_self (sep : Nat) (a : List Nat) (h : sep ∉ a) :
    a.takeWhile (fun u => u != sep) = a := by
  induction a with
  | nil => rfl
  | cons u t ih =>
    have hu : u ≠ sep := fun e => h (by simp [e])
    have ht : sep ∉ t := fun e => h (by simp [e])
    have hb : (u != sep) = true := by simp [hu]
    simp [List.takeWhile, hb, ih ht]

theorem queryOf_append (base query : JSString) (hb : 63 ∉ base) (hq : 35 ∉ query) :
    queryOf (base ++ 63 :: query) = query := by
  unfold queryOf
  rw [dropWhile_ne_append 63 base query hb]
  simp only [List.drop_succ_cons, List.drop_zero]
  exact takeWhile_ne_self 35 query hq

theorem percentDecode_cons_ne (a : Nat) (rest : List Nat) (h : a ≠ 37) :
    percentDecode (a :: rest) = a :: percentDecode rest := by
  match rest with
  | [] => simp [percentDecode]
  | [b] => simp [percentDecode]
  | b :: c :: t => simp [percentDecode, h]

theorem percentDecode_escape (x y h l : Nat) (rest : List Nat) (hh : hexValue h = some x)
    (hl : hexValue l = some y) :
    percentDecode (37 :: h :: l :: rest) = (x * 16 + y) :: percentDecode rest := by
  simp [percentDecode, hh, hl]

theorem percentDecode_formEncodeByte (b : Nat) (rest : List Nat) (h : b < 256) :
    percentDecode ((formEncodeByte b ++ rest).map (fun b => if b = 43 then 32 else b)) =
      b :: percentDecode (rest.map (fun b => if b = 43 then 32 else b)) := by
  unfold formEncodeByte
  split_ifs with c1 c2
  · have e1 : b ≠ 43 := by omega
    have e2 : b ≠ 37 := by omega
    simp only [List.cons_append, List.nil_append, List.map_cons, e1, if_false]
    exact percentDecode_cons_ne b _ e2
  · subst c2
    simp only [List.cons_append, List.nil_append, List.map_cons, if_true]
    exact percentDecode_cons_ne 32 _ (by decide)
  · have r1 := upperHexDigit_range (b / 16 % 16) (by omega)
    have r2 := upperHexDigit_range (b % 16) (by omega)
    have e1 : upperHexDigit (b / 16 % 16) ≠ 43 := by omega
    have e2 : upperHexDigit (b % 16) ≠ 43 := by omega
    simp only [List.cons_append, List.nil_append, List.map_cons, e1, e2, if_false,
      show (37 : Nat) ≠ 43 by decide]
    rw [percentDecode_escape _ _ _ _ _ (hexValue_upperHexDigit _ (by omega))
      (hexValue_upperHexDigit _ (by omega))]
    congr 1
    omega

theorem percentDecode_formEncode (bs : Bytes) (h : ∀ b ∈ bs, b < 256) :
    percentDecode ((bs.flatMap formEncodeByte).map (fun b => if b = 43 then 32 else b)) = bs := by
  induction bs with
  | nil => rfl
  | cons b t ih =>
    rw [List.flatMap_cons, percentDecode_formEncodeByte b _ (h b (by simp)),
      ih (fun x hx => h x (by simp [hx]))]

theorem formDecode_formEncode (s : JSString) (h : WellFormed s) : formDecode (formEncode s) = s := by
  unfold formDecode formEncode
  rw [percentDecode_formEncode _ (utf8Encode_lt s h), utf8_roundtrip s h]

theorem segment_not_mem (n v : JSString) : 38 ∉ formEncode n ++ 61 :: formEncode v := by
  intro h
  rcases List.mem_append.1 h with h | h
  · exact (formEncode_safe n 38 h).2.1 rfl
  · rcases List.mem_cons.1 h with h | h
    · exact absurd h (by decide)
    · exact (formEncode_safe v 38 h).2.1 rfl

theorem splitOn_serializeParams (ps : List (JSString × JSString)) (hne : ps ≠ []) :
    splitOn 38 (serializeParams ps) = ps.map (fun p => formEncode p.1 ++ 61 :: formEncode p.2) := by
  induction ps using serializeParams.induct with
  | case1 => exact absurd rfl hne
  | case2 n v =>
    simp only [serializeParams, List.map_cons, List.map_nil]
    exact splitOn_of_not_mem 38 _ (segment_not_mem n v)
  | case3 n v ps hps ih =>
    have hps2 : ps ≠ [] := fun e => hps (by simp [e])
    have e : serializeParams ((n, v) :: ps) =
        (formEncode n ++ 61 :: formEncode v) ++ 38 :: serializeParams ps := by
      cases ps with
      | nil => exact absurd rfl hps2
      | cons p t => simp [serializeParams]
    rw [e, splitOn_append 38 _ _ (segment_not_mem n v), ih hps2]
    rfl

theorem serializeParams_safe (ps : List (JSString × JSString)) :
    ∀ u ∈ serializeParams ps, u < 128 ∧ u ≠ 35 := by
  induction ps using serializeParams.induct with
  | case1 => simp [serializeParams]
  | case2 n v =>
    intro u hu
    simp only [serializeParams, List.mem_append, List.mem_cons] at hu
    rcases hu with h | h | h
    · exact ⟨(formEncode_safe n u h).1, (formEncode_safe n u h).2.2.2⟩
    · omega
    · exact ⟨(formEncode_safe v u h).1, (formEncode_safe v u h).2.2.2⟩
  | case3 n v ps hps ih =>
    have hps2 : ps ≠ [] := fun e => hps (by simp [e])
    have e : serializeParams ((n, v) :: ps) =
        (formEncode n ++ 61 :: formEncode v) ++ 38 :: serializeParams ps := by
      cases ps with
      | nil => exact absurd rfl hps2
      | cons p t => simp [serializeParams]
    intro u hu
    rw [e] at hu
    simp only [List.mem_append, List.mem_cons] at hu
    rcases hu with (h | h | h) | h | h
    · exact ⟨(formEncode_safe n u h).1, (formEncode_safe n u h).2.2.2⟩
    · omega
    · exact ⟨(formEncode_safe v u h).1, (formEncode_safe v u h).2.2.2⟩
    · omega
    · exact ih u h

theorem parseParams_serializeParams (ps : List (JSString × JSString)) :
    parseParams (serializeParams ps) =
      ps.map (fun p => (formDecode (formEncode p.1), formDecode (formEncode p.2))) := by
  unfold parseParams
  rw [utf8Encode_ascii _ (fun u hu => (serializeParams_safe ps u hu).1)]
  cases hps : ps with
  | nil => simp [serializeParams, splitOn]
  | cons p t =>
    rw [← hps, splitOn_serializeParams ps (by simp [hps])]
    have hf : (ps.map (fun p => formEncode p.1 ++ 61 :: formEncode p.2)).filter (fun p => !p.isEmpty) =
        ps.map (fun p => formEncode p.1 ++ 61 :: formEncode p.2) := by
      rw [List.filter_eq_self]
      intro a ha
      rw [List.mem_map] at ha
      obtain ⟨q, _, hq⟩ := ha
      rw [← hq]
      cases formEncode q.1 <;> rfl
    rw [hf, List.map_map]
    apply List.map_congr_left
    intro q _
    have h61 : 61 ∉ formEncode q.1 := fun h => (formEncode_safe q.1 61 h).2.2.1 rfl
    simp only [Function.comp, takeWhile_ne_append 61 _ _ h61, dropWhile_ne_append 61 _ _ h61,
      List.drop_succ_cons, List.drop_zero]

theorem authorizeUrl_eq (cfg : Config) (scope statePayload : JSString) :
    authorizeUrl cfg scope statePayload =
      lit "https://github.com/login/oauth/authorize" ++ 63 ::
        serializeParams [(lit "client_id", stringOfOptional cfg.CLIENT_ID),
          (lit "redirect_uri", stringOfOptional cfg.REDIRECT_URL),
          (lit "scope", scope), (lit "state", statePayload)] := by
  have h1 : (lit "client_id" != lit "redirect_uri") = true := by decide
  have h2 : (lit "client_id" != lit "scope") = true := by decide
  have h3 : (lit "redirect_uri" != lit "scope") = true := by decide
  have h4 : (lit "client_id" != lit "state") = true := by decide
  have h5 : (lit "redirect_uri" != lit "state") = true := by decide
  have h6 : (lit "scope" != lit "state") = true := by decide
  simp only [authorizeUrl, searchParamsSet, List.span, List.span.loop, h1, h2, h3, h4, h5, h6,
    List.reverse_nil, List.reverse_cons, List.nil_append, List.cons_append]

theorem searchParamsGet_state (cfg : Config) (scope statePayload : JSString) :
    searchParamsGet (authorizeUrl cfg scope statePayload) (lit "state") =
      some (formDecode (formEncode statePayload)) := by
  unfold searchParamsGet
  rw [authorizeUrl_eq, queryOf_append _ _ (by decide) (fun h => (serializeParams_safe _ 35 h).2 rfl),
    parseParams_serializeParams]
  have n1 : formDecode (formEncode (lit "client_id")) = lit "client_id" := by decide
  have n2 : formDecode (formEncode (lit "redirect_uri")) = lit "redirect_uri" := by decide
  have n3 : formDecode (formEncode (lit "scope")) = lit "scope" := by decide
  have n4 : formDecode (formEncode (lit "state")) = lit "state" := by decide
  have d1 : decide (lit "client_id" = lit "state") = false := by decide
  have d2 : decide (lit "redirect_uri" = lit "state") = false := by decide
  have d3 : decide (lit "scope" = lit "state") = false := by decide
  simp only [List.map_cons, List.map_nil, n1, n2, n3, n4, List.find?, d1, d2, d3, decide_True,
    Option.map_some']

theorem base64urlChar_safe (v : Nat) :
    base64urlChar v < 128 ∧
      ((48 ≤ base64urlChar v ∧ base64urlChar v ≤ 57) ∨ (65 ≤ base64urlChar v ∧ base64urlChar v ≤ 90) ∨
        (97 ≤ base64urlChar v ∧ base64urlChar v ≤ 122) ∨ base64urlChar v = 42 ∨
        base64urlChar v = 45 ∨ base64urlChar v = 46 ∨ base64urlChar v = 95) := by
  unfold base64urlChar
  split_ifs <;> omega

theorem base64urlEncode_safe (bs : Bytes) :
    ∀ u ∈ base64urlEncode bs, u < 128 ∧
      ((48 ≤ u ∧ u ≤ 57) ∨ (65 ≤ u ∧ u ≤ 90) ∨ (97 ≤ u ∧ u ≤ 122) ∨ u = 42 ∨ u = 45 ∨ u = 46 ∨
        u = 95) := by
  induction bs using base64urlEncode.induct with
  | case1 => simp [base64urlEncode]
  | case2 a =>
    intro u hu
    simp only [base64urlEncode, List.mem_cons, List.mem_singleton, List.not_mem_nil, or_false] at hu
    rcases hu with e | e <;> exact e ▸ base64urlChar_safe _
  | case3 a b =>
    intro u hu
    simp only [base64urlEncode, List.mem_cons, List.mem_singleton, List.not_mem_nil, or_false] at hu
    rcases hu with e | e | e <;> exact e ▸ base64urlChar_safe _
  | case4 a b c rest ih =>
    intro u hu
    simp only [base64urlEncode, List.mem_cons] at hu
    rcases hu with e | e | e | e | e
    · exact e ▸ base64urlChar_safe _
    · exact e ▸ base64urlChar_safe _
    · exact e ▸ base64urlChar_safe _
    · exact e ▸ base64urlChar_safe _
    · exact ih u e

theorem formEncode_of_safe (s : JSString)
    (h : ∀ u ∈ s, u < 128 ∧
      ((48 ≤ u ∧ u ≤ 57) ∨ (65 ≤ u ∧ u ≤ 90) ∨ (97 ≤ u ∧ u ≤ 122) ∨ u = 42 ∨ u = 45 ∨ u = 46 ∨
        u = 95)) : formEncode s = s := by
  unfold formEncode
  rw [utf8Encode_ascii s (fun u hu => (h u hu).1)]
  induction s with
  | nil => rfl
  | cons u t ih =>
    rw [List.flatMap_cons, ih (fun x hx => h x (by simp [hx]))]
    simp [formEncodeByte, (h u (by simp)).2]

theorem isJSString_hexEncode (bs : Bytes) (h : ∀ b ∈ bs, b < 256) : IsJSString (hexEncode bs) := by
  intro u hu
  unfold hexEncode at hu
  rw [List.mem_flatMap] at hu
  obtain ⟨b, hb, hu⟩ := hu
  have hlt := h b hb
  have h1 := hexDigit_lt (b / 16) (by omega)
  have h2 := hexDigit_lt (b % 16) (by omega)
  simp only [List.mem_cons, List.mem_singleton, List.not_mem_nil, or_false] at hu
  rcases hu with e | e <;> omega

theorem isJSString_normalizeOrigin (raw : JSString) (h : IsJSString raw) :
    IsJSString (normalizeOrigin raw) := by
  unfold normalizeOrigin
  split_ifs
  · exact h
  · intro u hu
    rcases List.mem_append.1 hu with hu | hu
    · rw [lit_https] at hu
      simp only [List.mem_cons, List.mem_singleton, List.not_mem_nil, or_false] at hu
      omega
    · exact h u hu

theorem auth_accepted (P : Platform) (cfg : Config) (random : Bytes) (q : AuthQuery) (raw : JSString)
    (hprovider : q.provider = none ∨ q.provider = some (lit "github"))
    (hraw : orElse q.origin q.site_id = some raw) (hne : raw ≠ [])
    (hallowed : isAllowedOrigin P cfg.ORIGINS (normalizeOrigin raw) = true) :
    auth P cfg random q =
      ⟨[⟨lit "oauth_state", encodeState (hexEncode random) (normalizeOrigin raw), stateCookieOptions⟩],
        none, [],
        Reply.redirect (authorizeUrl cfg ((orElse q.scope (some cfg.SCOPES)).getD cfg.SCOPES)
          (encodeState (hexEncode random) (normalizeOrigin raw)))⟩ := by
  have hp : q.provider.getD (lit "github") = lit "github" := by
    rcases hprovider with h | h <;> simp [h]
  simp only [auth, hp, hraw, hallowed, strTruthy_of_ne_nil raw hne]
  simp

/-- C4. An accepted `/auth` request redirects to a URL that starts with
`https://github.com/login/oauth/authorize?`; the `state` query parameter of that URL is
equal to the value of the `oauth_state` cookie set in the same response; the token is
unchanged by URL escaping, and it decodes to `{csrf, origin}` with the hexadecimal form
of the random bytes and the normalised origin. -/
theorem auth_binds_cookie_and_state (P : Platform) (cfg : Config) (random : Bytes) (q : AuthQuery)
    (raw : JSString)
    (hprovider : q.provider = none ∨ q.provider = some (lit "github"))
    (hraw : orElse q.origin q.site_id = some raw) (hne : raw ≠ []) (hjs : IsJSString raw)
    (hallowed : isAllowedOrigin P cfg.ORIGINS (normalizeOrigin raw) = true)
    (_hlen : random.length = 16) (hbytes : ∀ b ∈ random, b < 256) :
    ∃ url token,
      auth P cfg random q =
        ⟨[⟨lit "oauth_state", token, stateCookieOptions⟩], none, [], Reply.redirect url⟩ ∧
      (∃ rest, url = lit "https://github.com/login/oauth/authorize?" ++ rest) ∧
      searchParamsGet url (lit "state") = some token ∧
      formEncode token = token ∧
      decodeState token =
        some (JSON.obj [(lit "csrf", JSON.str (hexEncode random)),
          (lit "origin", JSON.str (normalizeOrigin raw))]) := by
  refine ⟨_, _, auth_accepted P cfg random q raw hprovider hraw hne hallowed, ?_, ?_, ?_, ?_⟩
  · refine ⟨serializeParams [(lit "client_id", stringOfOptional cfg.CLIENT_ID),
      (lit "redirect_uri", stringOfOptional cfg.REDIRECT_URL),
      (lit "scope", (orElse q.scope (some cfg.SCOPES)).getD cfg.SCOPES),
      (lit "state", encodeState (hexEncode random) (normalizeOrigin raw))], ?_⟩
    have e : lit "https://github.com/login/oauth/authorize?" =
        lit "https://github.com/login/oauth/authorize" ++ [63] := by decide
    rw [authorizeUrl_eq, e]
    simp
  · rw [searchParamsGet_state]
    unfold encodeState
    rw [formDecode_formEncode _
      (wellFormed_of_ascii _ (fun u hu => (base64urlEncode_safe _ u hu).1))]
  · exact formEncode_of_safe _ (base64urlEncode_safe _)
  · exact decodeState_encodeState _ _ (isJSString_hexEncode random hbytes)
      (isJSString_normalizeOrigin raw hjs)

/-- Scenario 1: `GET /auth?origin=https://site.example` with allow-list `["site.example"]`. -/
theorem auth_binds_cookie_and_state_witness :
    ∃ url token,
      auth (examplePlatform (.threw [])) exampleConfig exampleRandom
          ⟨none, some (lit "https://site.example"), none, none⟩ =
        ⟨[⟨lit "oauth_state", token, stateCookieOptions⟩], none, [], Reply.redirect url⟩ ∧
      (∃ rest, url = lit "https://github.com/login/oauth/authorize?" ++ rest) ∧
      searchParamsGet url (lit "state") = some token ∧
      formEncode token = token ∧
      decodeState token =
        some (JSON.obj [(lit "csrf", JSON.str (hexEncode exampleRandom)),
          (lit "origin", JSON.str (normalizeOrigin (lit "https://site.example")))]) :=
  auth_binds_cookie_and_state _ exampleConfig exampleRandom _ (lit "https://site.example")
    (Or.inl rfl) (by decide) (by decide) (by decide) (by decide) (by decide) (by decide)

/-- C5. Decoding the token made from `{csrf, origin}` succeeds and yields an object whose
`csrf` and `origin` fields are the inputs, for all strings `csrf` and `origin`. -/
theorem state_codec_roundtrip (csrf origin : JSString) (hcsrf : IsJSString csrf)
    (horigin : IsJSString origin) :
    ∃ parsed, decodeState (encodeState csrf origin) = some parsed ∧
      parsed = JSON.obj [(lit "csrf", JSON.str csrf), (lit "origin", JSON.str origin)] ∧
      getProp parsed (lit "csrf") = some (JSON.str csrf) ∧
      getProp parsed (lit "origin") = some (JSON.str origin) := by
  refine ⟨_, decodeState_encodeState csrf origin hcsrf horigin, rfl, ?_, ?_⟩
  · simp [getProp, List.find?]
  · have d : decide (lit "csrf" = lit "origin") = false := by decide
    simp [getProp, List.find?, d]

/-- A round trip with a quote, a line feed, a non-ASCII letter, a surrogate pair and an
unpaired surrogate in the origin. -/
theorem state_codec_roundtrip_witness :
    ∃ parsed, decodeState (encodeState (hexEncode exampleRandom) [34, 10, 233, 55357, 56832, 55357]) =
        some parsed ∧
      parsed = JSON.obj [(lit "csrf", JSON.str (hexEncode exampleRandom)),
        (lit "origin", JSON.str [34, 10, 233, 55357, 56832, 55357])] ∧
      getProp parsed (lit "csrf") = some (JSON.str (hexEncode exampleRandom)) ∧
      getProp parsed (lit "origin") = some (JSON.str [34, 10, 233, 55357, 56832, 55357]) :=
  state_codec_roundtrip _ _ (by decide) (by decide)

theorem parseStringBody_tail (tail : List Nat) (ht : tail = [] ∨ tail = [65533]) :
    parseStringBody tail = none := by
  rcases ht with rfl | rfl <;> decide

theorem parseStringBody_backslash_tail (tail : List Nat) (ht : tail = [] ∨ tail = [65533]) :
    parseStringBody (92 :: tail) = none := by
  rcases ht with rfl | rfl <;> decide

theorem parseStringBody_short_escape (xs tail : List Nat) (hx : xs.length < 4)
    (ht : tail = [] ∨ tail = [65533]) : parseStringBody (92 :: 117 :: (xs ++ tail)) = none := by
  rw [parseStringBody.eq_def]
  simp only [show (92 : Nat) ≠ 34 by decide, show ¬ (92 : Nat) < 32 by decide, if_false, if_true]
  match xs, hx with
  | [], _ => rcases ht with rfl | rfl <;> simp
  | [a], _ => rcases ht with rfl | rfl <;> simp
  | [a, b], _ => rcases ht with rfl | rfl <;> simp
  | [a, b, c], _ =>
    rcases ht with rfl | rfl
    · simp
    · have hd : hexValue 65533 = none := by decide
      simp only [List.cons_append, List.nil_append, hd]
      cases hexValue a <;> cases hexValue b <;> cases hexValue c <;> rfl

theorem prefix_cases {α : Type} (p a b : List α) (h : p <+: a ++ b) :
    p <+: a ∨ ∃ q, p = a ++ q ∧ q <+: b := by
  induction a generalizing p with
  | nil => exact Or.inr ⟨p, rfl, h⟩
  | cons x t ih =>
    rw [List.cons_append, List.prefix_cons_iff] at h
    rcases h with h | ⟨r, hr, hr2⟩
    · subst h
      exact Or.inl (List.nil_prefix)
    · subst hr
      rcases ih r hr2 with h1 | ⟨q, hq, hq2⟩
      · exact Or.inl ((List.cons_prefix_cons).2 ⟨rfl, h1⟩)
      · exact Or.inr ⟨q, by rw [hq]; rfl, hq2⟩

theorem prefix_quoteUnit (u : Nat) (p : List Nat) (hp : p <+: quoteUnit u) :
    p = quoteUnit u ∨ p = [] ∨ p = [92] ∨ ∃ xs, p = 92 :: 117 :: xs ∧ xs.length < 4 := by
  have hlen : (quoteUnit u).length = 1 ∨ (∃ x, quoteUnit u = [92, x]) ∨ quoteUnit u = unicodeEscape u := by
    unfold quoteUnit
    split_ifs <;> simp
  rcases hlen with h1 | ⟨x, hx⟩ | h3
  · match hq : quoteUnit u, h1 with
    | [a], _ =>
      rw [hq, List.prefix_cons_iff] at hp
      rcases hp with h | ⟨t, ht, ht2⟩
      · exact Or.inr (Or.inl h)
      · rw [List.prefix_nil] at ht2
        subst ht2
        exact Or.inl ht
  · rw [hx, List.prefix_cons_iff] at hp
    rcases hp with h | ⟨t, ht, ht2⟩
    · exact Or.inr (Or.inl h)
    · rw [List.prefix_cons_iff] at ht2
      rcases ht2 with h | ⟨t2, ht3, ht4⟩
      · subst h
        exact Or.inr (Or.inr (Or.inl ht))
      · rw [List.prefix_nil] at ht4
        subst ht4
        subst ht3
        exact Or.inl (by rw [hx, ht])
  · rw [h3] at hp ⊢
    unfold unicodeEscape at hp ⊢
    rw [List.prefix_cons_iff] at hp
    rcases hp with h | ⟨t, ht, ht2⟩
    · exact Or.inr (Or.inl h)
    · rw [List.prefix_cons_iff] at ht2
      rcases ht2 with h | ⟨t2, ht3, ht4⟩
      · subst h
        exact Or.inr (Or.inr (Or.inl ht))
      · subst ht3
        subst ht
        have hl := List.IsPrefix.length_le ht4
        simp only [List.length_cons, List.length_nil] at hl
        by_cases hfull : t2.length = 4
        · left
          have := List.IsPrefix.eq_of_length ht4 (by simp [hfull])
          rw [this]
        · right
          right
          right
          exact ⟨t2, rfl, by omega⟩

theorem parseStringBody_prefix_quoteUnit (u : Nat) (p tail : List Nat) (hu : u < 65536)
    (hp : p <+: quoteUnit u) (ht : tail = [] ∨ tail = [65533]) :
    parseStringBody (p ++ tail) = none := by
  rcases prefix_quoteUnit u p hp with h | h | h | ⟨xs, h, hx⟩
  · rw [h, parseStringBody_quoteUnit u tail hu, parseStringBody_tail tail ht]
    rfl
  · rw [h]
    exact parseStringBody_tail tail ht
  · rw [h]
    exact parseStringBody_backslash_tail tail ht
  · rw [h]
    exact parseStringBody_short_escape xs tail hx ht

theorem parseStringBody_truncated (s : JSString) (p tail : List Nat) (hs : IsJSString s)
    (hp : p <+: quoteBody s) (ht : tail = [] ∨ tail = [65533]) :
    parseStringBody (p ++ tail) = none := by
  induction s using quoteBody.induct generalizing p with
  | case1 =>
    simp only [quoteBody, List.prefix_nil] at hp
    subst hp
    exact parseStringBody_tail tail ht
  | case2 u =>
    simp only [quoteBody] at hp
    exact parseStringBody_prefix_quoteUnit u p tail (hs u (by simp)) hp ht
  | case3 u l t hpair ih =>
    have hst : IsJSString t := fun x hx => hs x (by simp [hx])
    simp only [Bool.and_eq_true] at hpair
    have h1 := (isHighSurrogate_iff u).1 hpair.1
    have h2 := (isLowSurrogate_iff l).1 hpair.2
    simp only [quoteBody, hpair.1, hpair.2, Bool.and_self, if_true] at hp
    rw [List.prefix_cons_iff] at hp
    rcases hp with h | ⟨r, hr, hr2⟩
    · subst h
      exact parseStringBody_tail tail ht
    · subst hr
      rw [List.cons_append, parseStringBody_plain u _ (by omega) (by omega) (by omega)]
      rw [List.prefix_cons_iff] at hr2
      rcases hr2 with h | ⟨r2, hr3, hr4⟩
      · subst h
        rw [List.nil_append, parseStringBody_tail tail ht]
        rfl
      · subst hr3
        rw [List.cons_append, parseStringBody_plain l _ (by omega) (by omega) (by omega),
          ih r2 hst hr4]
        rfl
  | case4 u l t hpair ih =>
    have hst : IsJSString (l :: t) := fun x hx => hs x (by simp [hx])
    simp only [quoteBody, hpair, if_false, Bool.false_eq_true] at hp
    rcases prefix_cases p _ _ hp with h | ⟨q, hq, hq2⟩
    · exact parseStringBody_prefix_quoteUnit u p tail (hs u (by simp)) h ht
    · rw [hq, List.append_assoc, parseStringBody_quoteUnit u _ (hs u (by simp)), ih q hst hq2]
      rfl

theorem parseValue_tail (fuel : Nat) (tail : List Nat) (ht : tail = [] ∨ tail = [65533]) :
    parseValue fuel tail = none := by
  cases fuel with
  | zero => rcases ht with rfl | rfl <;> rfl
  | succ n =>
    rcases ht with rfl | rfl
    · simp [parseValue, skipWs]
    · rw [parseValue, skipWs_cons _ _ (by decide)]
      have h1 : startsWith [65533] (lit "null") = false := by decide
      have h2 : startsWith [65533] (lit "true") = false := by decide
      have h3 : startsWith [65533] (lit "false") = false := by decide
      have h4 : isDigit 65533 = false := by decide
      simp [h1, h2, h3, h4]

theorem skipWs_tail (tail : List Nat) (ht : tail = [] ∨ tail = [65533]) : skipWs tail = tail := by
  rcases ht with rfl | rfl <;> decide

theorem parseValue_truncated_string (fuel : Nat) (s : JSString) (p tail : List Nat)
    (hs : IsJSString s) (hp : p <+: quote s) (hne : p ≠ quote s) (ht : tail = [] ∨ tail = [65533]) :
    parseValue fuel (p ++ tail) = none := by
  unfold quote at hp hne
  rw [List.prefix_cons_iff] at hp
  rcases hp with h | ⟨r, hr, hr2⟩
  · subst h
    exact parseValue_tail fuel tail ht
  · subst hr
    cases fuel with
    | zero => rfl
    | succ n =>
      rw [List.cons_append, parseValue, skipWs_cons _ _ (by decide)]
      rcases prefix_cases r _ _ hr2 with h | ⟨q, hq, hq2⟩
      · simp [parseStringBody_truncated s r tail hs h ht]
      · rw [List.prefix_cons_iff] at hq2
        rcases hq2 with h | ⟨q2, hq3, hq4⟩
        · subst h
          rw [List.append_nil] at hq
          subst hq
          simp [parseStringBody_truncated s _ tail hs (List.prefix_refl _) ht]
        · rw [List.prefix_nil] at hq4
          subst hq4
          subst hq3
          exact absurd (by rw [hq]) hne

theorem parseMembers_truncated (fuel : Nat) (key val : JSString) (p tail : List Nat)
    (acc : List (JSString × JSON)) (hk : IsJSString key) (hv : IsJSString val)
    (hp : p <+: quote key ++ 58 :: quote val) (ht : tail = [] ∨ tail = [65533]) :
    parseMembers fuel (p ++ tail) acc = none := by
  cases fuel with
  | zero => rfl
  | succ n =>
    rcases prefix_cases p _ _ hp with h | ⟨q, hq, hq2⟩
    · unfold quote at h
      rw [List.prefix_cons_iff] at h
      rcases h with h | ⟨r, hr, hr2⟩
      · subst h
        rw [List.nil_append, parseMembers, skipWs_tail tail ht]
        rcases ht with rfl | rfl <;> simp
      · subst hr
        rw [List.cons_append, parseMembers, skipWs_cons _ _ (by decide)]
        rcases prefix_cases r _ _ hr2 with h | ⟨q, hq, hq2⟩
        · simp [parseStringBody_truncated key r tail hk h ht]
        · rw [List.prefix_cons_iff] at hq2
          rcases hq2 with h | ⟨q2, hq3, hq4⟩
          · subst h
            rw [List.append_nil] at hq
            subst hq
            simp [parseStringBody_truncated key _ tail hk (List.prefix_refl _) ht]
          · rw [List.prefix_nil] at hq4
            subst hq4
            subst hq3
            subst hq
            simp only [List.append_assoc, List.cons_append, List.nil_append, if_true,
              parseStringBody_quoteBody key tail hk, skipWs_tail tail ht]
            rcases ht with rfl | rfl <;> simp
    · subst hq
      rw [List.append_assoc, quote_append, parseMembers, skipWs_cons _ _ (by decide)]
      simp only [if_true, parseStringBody_quoteBody key _ hk]
      rw [List.prefix_cons_iff] at hq2
      rcases hq2 with h | ⟨q2, hq3, hq4⟩
      · subst h
        rw [List.nil_append, skipWs_tail tail ht]
        rcases ht with rfl | rfl <;> simp
      · subst hq3
        rw [List.cons_append, skipWs_cons _ _ (by decide)]
        simp only [if_true]
        by_cases hfull : q2 = quote val
        · subst hfull
          cases n with
          | zero => rfl
          | succ m =>
            rw [parseValue_string m val tail hv]
            simp only [skipWs_tail tail ht]
            rcases ht with rfl | rfl <;> simp
        · simp [parseValue_truncated_string n val q2 tail hv hq4 hfull ht]

theorem parseValue_open_members (fuel : Nat) (rest : List Nat) :
    parseValue (fuel + 1) (123 :: 34 :: rest) = parseMembers fuel (34 :: rest) [] := by
  rw [parseValue, skipWs_cons _ _ (by decide)]
  simp only [show (123 : Nat) ≠ 34 by decide, show (123 : Nat) ≠ 91 by decide, if_false, if_true]
  rw [skipWs_cons _ _ (by decide)]
  simp only [show (34 : Nat) ≠ 125 by decide, if_false]

theorem parseValue_open_tail (fuel : Nat) (tail : List Nat) (ht : tail = [] ∨ tail = [65533]) :
    parseValue fuel (123 :: tail) = none := by
  cases fuel with
  | zero => rfl
  | succ n =>
    rw [parseValue, skipWs_cons _ _ (by decide)]
    simp only [show (123 : Nat) ≠ 34 by decide, show (123 : Nat) ≠ 91 by decide, if_false, if_true]
    rw [skipWs_tail tail ht]
    rcases ht with rfl | rfl
    · rfl
    · cases n <;> simp [parseMembers, skipWs, isJSONWhitespace]

theorem parseValue_open_truncated (fuel : Nat) (key val : JSString) (p tail : List Nat)
    (hk : IsJSString key) (hv : IsJSString val)
    (hp : p <+: quote key ++ 58 :: quote val) (ht : tail = [] ∨ tail = [65533]) :
    parseValue fuel (123 :: (p ++ tail)) = none := by
  cases fuel with
  | zero => rfl
  | succ n =>
    cases p with
    | nil => exact parseValue_open_tail _ tail ht
    | cons c r =>
      have hc : c = 34 := by
        rw [quote_append, List.prefix_cons_iff] at hp
        rcases hp with h | ⟨t, h, _⟩
        · exact absurd h (by simp)
        · exact (List.cons.inj h).1
      subst hc
      rw [List.cons_append, parseValue_open_members, ← List.cons_append]
      exact parseMembers_truncated n key val _ tail [] hk hv hp ht

theorem jsonParse_truncated_state (csrf origin : JSString) (p tail : List Nat)
    (hc : IsJSString csrf) (ho : IsJSString origin)
    (hp : p <+: stringify id (JSON.obj [(lit "csrf", JSON.str csrf), (lit "origin", JSON.str origin)]))
    (hne : p ≠ stringify id (JSON.obj [(lit "csrf", JSON.str csrf), (lit "origin", JSON.str origin)]))
    (ht : tail = [] ∨ tail = [65533]) :
    jsonParse (p ++ tail) = none := by
  have hT : stringify id (JSON.obj [(lit "csrf", JSON.str csrf), (lit "origin", JSON.str origin)]) =
      123 :: ((quote (lit "csrf") ++ 58 :: quote csrf) ++ 44 ::
        ((quote (lit "origin") ++ 58 :: quote origin) ++ [125])) := by
    rw [stringify_state]
    simp
  rw [hT] at hp hne
  have key : ∀ fuel, parseValue (fuel + 4) (p ++ tail) = none := by
    intro fuel
    rw [List.prefix_cons_iff] at hp
    rcases hp with h | ⟨r, hr, hr2⟩
    · subst h
      exact parseValue_tail _ tail ht
    · subst hr
      rcases prefix_cases r _ _ hr2 with h | ⟨q, hq, hq2⟩
      · exact parseValue_open_truncated _ _ _ r tail isJSString_lit_csrf hc h ht
      · rw [List.prefix_cons_iff] at hq2
        rcases hq2 with h | ⟨q2, hq3, hq4⟩
        · subst h
          rw [List.append_nil] at hq
          subst hq
          exact parseValue_open_truncated _ _ _ _ tail isJSString_lit_csrf hc (List.prefix_refl _) ht
        · subst hq3
          subst hq
          have hq5 : q2 <+: quote (lit "origin") ++ 58 :: quote origin := by
            rcases prefix_cases q2 _ _ hq4 with h | ⟨q3, hq6, hq7⟩
            · exact h
            · rw [List.prefix_cons_iff] at hq7
              rcases hq7 with h | ⟨q4, hq8, hq9⟩
              · subst h
                rw [List.append_nil] at hq6
                rw [hq6]
              · rw [List.prefix_nil] at hq9
                subst hq9
                subst hq8
                subst hq6
                exact absurd rfl hne
          have e : 123 :: ((quote (lit "csrf") ++ 58 :: quote csrf) ++ 44 :: q2) ++ tail =
              123 :: 34 :: (quoteBody (lit "csrf") ++ 34 :: 58 :: (quote csrf ++ 44 :: (q2 ++ tail))) := by
            simp [quote]
          rw [e, parseValue_open_members]
          have e2 : 34 :: (quoteBody (lit "csrf") ++ 34 :: 58 :: (quote csrf ++ 44 :: (q2 ++ tail))) =
              quote (lit "csrf") ++ 58 :: (quote csrf ++ 44 :: (q2 ++ tail)) := by
            simp [quote]
          rw [e2, parseMembers_more _ _ _ _ _ isJSString_lit_csrf hc]
          exact parseMembers_truncated _ _ _ q2 tail _ isJSString_lit_origin ho hq5 ht
  unfold jsonParse
  by_cases hlen : 2 ≤ (p ++ tail).length
  · obtain ⟨k, hk⟩ : ∃ k, 2 * (p ++ tail).length + 2 = k + 4 := ⟨2 * (p ++ tail).length - 2, by omega⟩
    rw [hk, key k]
  · have hp2 : p = [] ∨ p = [123] := by
      rw [List.prefix_cons_iff] at hp
      rcases hp with h | ⟨r, hr, _⟩
      · exact Or.inl h
      · subst hr
        cases r with
        | nil => exact Or.inr rfl
        | cons a b =>
          simp only [List.length_append, List.length_cons] at hlen
          omega
    rcases hp2 with h | h
    · subst h
      rw [List.nil_append, parseValue_tail _ tail ht]
    · subst h
      rw [List.singleton_append, parseValue_open_tail _ tail ht]

theorem base64urlDecode_take (bs : Bytes) (h : ∀ b ∈ bs, b < 256) (n : Nat)
    (hn : n < (base64urlEncode bs).length) :
    ∃ m, m < bs.length ∧ base64urlDecode ((base64urlEncode bs).take n) = bs.take m := by
  unfold base64urlDecode
  induction bs using base64urlEncode.induct generalizing n with
  | case1 => simp [base64urlEncode] at hn
  | case2 a =>
    have ha : a < 256 := h a (by simp)
    simp only [base64urlEncode, List.length_cons, List.length_nil] at hn
    refine ⟨0, by simp, ?_⟩
    match n, hn with
    | 0, _ => rfl
    | 1, _ =>
      simp only [base64urlEncode, List.take_succ_cons, List.take_zero]
      rw [sextets_cons_char _ (by omega)]
      rfl
  | case3 a b =>
    have ha : a < 256 := h a (by simp)
    have hb : b < 256 := h b (by simp)
    simp only [base64urlEncode, List.length_cons, List.length_nil] at hn
    match n, hn with
    | 0, _ => exact ⟨0, by simp, rfl⟩
    | 1, _ =>
      refine ⟨0, by simp, ?_⟩
      simp only [base64urlEncode, List.take_succ_cons, List.take_zero]
      rw [sextets_cons_char _ (by omega)]
      rfl
    | 2, _ =>
      refine ⟨1, by simp, ?_⟩
      simp only [base64urlEncode, List.take_succ_cons, List.take_zero]
      rw [sextets_cons_char _ (by omega), sextets_cons_char _ (by omega)]
      simp only [sextets, packSextets]
      have e : a / 4 * 4 + (a % 4 * 16 + b / 16) / 16 = a := by omega
      rw [e]
  | case4 a b c rest ih =>
    have ha : a < 256 := h a (by simp)
    have hb : b < 256 := h b (by simp)
    have hc : c < 256 := h c (by simp)
    have hr : ∀ x ∈ rest, x < 256 := fun x hx => h x (by simp [hx])
    have e1 : a / 4 * 4 + (a % 4 * 16 + b / 16) / 16 = a := by omega
    have e2 : (a % 4 * 16 + b / 16) % 16 * 16 + (b % 16 * 4 + c / 64) / 4 = b := by omega
    have e3 : (b % 16 * 4 + c / 64) % 4 * 64 + c % 64 = c := by omega
    simp only [base64urlEncode, List.length_cons] at hn
    match n, hn with
    | 0, _ => exact ⟨0, by simp, rfl⟩
    | 1, _ =>
      refine ⟨0, by simp, ?_⟩
      simp only [base64urlEncode, List.take_succ_cons, List.take_zero]
      rw [sextets_cons_char _ (by omega)]
      rfl
    | 2, _ =>
      refine ⟨1, by simp, ?_⟩
      simp only [base64urlEncode, List.take_succ_cons, List.take_zero]
      rw [sextets_cons_char _ (by omega), sextets_cons_char _ (by omega)]
      simp only [sextets, packSextets]
      rw [e1]
    | 3, _ =>
      refine ⟨2, by simp, ?_⟩
      simp only [base64urlEncode, List.take_succ_cons, List.take_zero]
      rw [sextets_cons_char _ (by omega), sextets_cons_char _ (by omega),
        sextets_cons_char _ (by omega)]
      simp only [sextets, packSextets]
      rw [e1, e2]
    | k + 4, hk =>
      obtain ⟨m, hm, hd⟩ := ih hr k (by omega)
      refine ⟨m + 3, by simp only [List.length_cons]; omega, ?_⟩
      simp only [base64urlEncode, List.take_succ_cons]
      rw [sextets_cons_char _ (by omega), sextets_cons_char _ (by omega),
        sextets_cons_char _ (by omega), sextets_cons_char _ (by omega)]
      simp only [packSextets]
      rw [hd, e1, e2, e3]

theorem utf8DecodeFrom_pending_nil (n cp lo hi : Nat) :
    utf8DecodeFrom ⟨n + 1, cp, lo, hi⟩ [] = [65533] := by
  simp [utf8DecodeFrom]

theorem utf8DecodeFrom_cut (cp m : Nat) (h : cp < 1114112) (hs : ¬ (55296 ≤ cp ∧ cp < 57344))
    (h0 : 0 < m) (hm : m < (utf8EncodeCodePoint cp).length) :
    utf8DecodeFrom Utf8State.idle ((utf8EncodeCodePoint cp).take m) = [65533] := by
  unfold utf8EncodeCodePoint at hm ⊢
  split_ifs at hm ⊢ with c1 c2 c3
  · simp only [List.length_cons, List.length_nil] at hm
    omega
  · simp only [List.length_cons, List.length_nil] at hm
    obtain rfl : m = 1 := by omega
    simp only [List.take_succ_cons, List.take_zero]
    rw [utf8DecodeFrom_idle_cons, utf8Lead_two _ (by omega), utf8DecodeFrom_pending_nil]
    rfl
  · simp only [List.length_cons, List.length_nil] at hm
    obtain rfl | rfl : m = 1 ∨ m = 2 := by omega
    · simp only [List.take_succ_cons, List.take_zero]
      rw [utf8DecodeFrom_idle_cons, utf8Lead_three _ (by omega), utf8DecodeFrom_pending_nil]
      rfl
    · simp only [List.take_succ_cons, List.take_zero]
      rw [utf8DecodeFrom_idle_cons, utf8Lead_three _ (by omega),
        utf8DecodeFrom_more 0 _ _ _ _ _ (by split_ifs <;> omega), utf8DecodeFrom_pending_nil]
      rfl
  · simp only [List.length_cons, List.length_nil] at hm
    obtain rfl | rfl | rfl : m = 1 ∨ m = 2 ∨ m = 3 := by omega
    · simp only [List.take_succ_cons, List.take_zero]
      rw [utf8DecodeFrom_idle_cons, utf8Lead_four _ (by omega), utf8DecodeFrom_pending_nil]
      rfl
    · simp only [List.take_succ_cons, List.take_zero]
      rw [utf8DecodeFrom_idle_cons, utf8Lead_four _ (by omega),
        utf8DecodeFrom_more 1 _ _ _ _ _ (by split_ifs <;> omega), utf8DecodeFrom_pending_nil]
      rfl
    · simp only [List.take_succ_cons, List.take_zero]
      rw [utf8DecodeFrom_idle_cons, utf8Lead_four _ (by omega),
        utf8DecodeFrom_more 1 _ _ _ _ _ (by split_ifs <;> omega),
        utf8DecodeFrom_more 0 _ _ _ _ _ (by omega), utf8DecodeFrom_pending_nil]
      rfl

theorem utf8Decode_append_codePoint (cp : Nat) (rest : Bytes) (h : cp < 1114112)
    (hs : ¬ (55296 ≤ cp ∧ cp < 57344)) :
    utf8Decode (utf8EncodeCodePoint cp ++ rest) = utf16OfCodePoint cp ++ utf8Decode rest := by
  unfold utf8Decode
  rw [utf8DecodeFrom_codePoint cp rest h hs, List.flatMap_cons]

theorem utf8EncodeCodePoint_length_pos (cp : Nat) : 0 < (utf8EncodeCodePoint cp).length := by
  unfold utf8EncodeCodePoint
  split_ifs <;> simp

theorem utf8Decode_take_step (cp : Nat) (units s : JSString) (m : Nat) (h : cp < 1114112)
    (hs : ¬ (55296 ≤ cp ∧ cp < 57344)) (hu : utf16OfCodePoint cp = units) (hunits : units ≠ [])
    (hm : m < (utf8EncodeCodePoint cp ++ utf8Encode s).length)
    (ih : ∀ k, k < (utf8Encode s).length →
      ∃ p tail, p <+: s ∧ p ≠ s ∧ (tail = [] ∨ tail = [65533]) ∧
        utf8Decode ((utf8Encode s).take k) = p ++ tail) :
    ∃ p tail, p <+: units ++ s ∧ p ≠ units ++ s ∧ (tail = [] ∨ tail = [65533]) ∧
      utf8Decode ((utf8EncodeCodePoint cp ++ utf8Encode s).take m) = p ++ tail := by
  by_cases hlt : m < (utf8EncodeCodePoint cp).length
  · rw [List.take_append_of_le_length (by omega)]
    have hne : ([] : JSString) ≠ units ++ s := by
      intro e
      have := congrArg List.length e
      have hpos : 0 < units.length := List.length_pos.2 hunits
      simp only [List.length_nil, List.length_append] at this
      omega
    by_cases h0 : m = 0
    · subst h0
      exact ⟨[], [], List.nil_prefix, hne, Or.inl rfl, rfl⟩
    · refine ⟨[], [65533], List.nil_prefix, hne, Or.inr rfl, ?_⟩
      unfold utf8Decode
      rw [utf8DecodeFrom_cut cp m h hs (by omega) hlt]
      rfl
  · have hsplit : (utf8EncodeCodePoint cp ++ utf8Encode s).take m =
        utf8EncodeCodePoint cp ++ (utf8Encode s).take (m - (utf8EncodeCodePoint cp).length) := by
      rw [List.take_append_eq_append_take, List.take_of_length_le (by omega)]
    rw [List.length_append] at hm
    obtain ⟨p, tail, hp, hpne, ht, hd⟩ := ih (m - (utf8EncodeCodePoint cp).length) (by omega)
    refine ⟨units ++ p, tail, (List.prefix_append_right_inj units).2 hp, ?_, ht, ?_⟩
    · intro e
      exact hpne (List.append_cancel_left e)
    · rw [hsplit, utf8Decode_append_codePoint cp _ h hs, hd, hu, List.append_assoc]

theorem utf8Decode_take (s : JSString) (hw : WellFormed s) (m : Nat)
    (hm : m < (utf8Encode s).length) :
    ∃ p tail, p <+: s ∧ p ≠ s ∧ (tail = [] ∨ tail = [65533]) ∧
      utf8Decode ((utf8Encode s).take m) = p ++ tail := by
  induction hw generalizing m with
  | nil => simp [utf8Encode] at hm
  | unit u t h1 h2 h3 _ ih =>
    have hns := (not_surrogate_iff u).1 ⟨h2, h3⟩
    rw [utf8Encode_unit u t h2 h3] at hm ⊢
    have hu : utf16OfCodePoint u = [u] := by
      unfold utf16OfCodePoint
      rw [if_pos h1]
    exact utf8Decode_take_step u [u] t m (by omega) hns hu (by simp) hm ih
  | pair hi lo t h1 h2 _ ih =>
    rw [utf8Encode_pair hi lo t h1 h2] at hm ⊢
    rw [isHighSurrogate_iff] at h1
    rw [isLowSurrogate_iff] at h2
    have hu : utf16OfCodePoint (65536 + (hi - 55296) * 1024 + (lo - 56320)) = [hi, lo] := by
      unfold utf16OfCodePoint
      rw [if_neg (by omega)]
      have e1 : 55296 + (65536 + (hi - 55296) * 1024 + (lo - 56320) - 65536) / 1024 = hi := by omega
      have e2 : 56320 + (65536 + (hi - 55296) * 1024 + (lo - 56320) - 65536) % 1024 = lo := by omega
      rw [e1, e2]
    exact utf8Decode_take_step _ [hi, lo] t m (by omega) (by omega) hu (by simp) hm ih

theorem decodeState_truncated (csrf origin t : JSString) (hc : IsJSString csrf)
    (ho : IsJSString origin) (hp : t <+: encodeState csrf origin)
    (hne : t ≠ encodeState csrf origin) : decodeState t = none := by
  have hw := wellFormed_state csrf origin hc ho
  have hlen : t.length < (encodeState csrf origin).length := by
    rcases Nat.lt_or_ge t.length (encodeState csrf origin).length with h | h
    · exact h
    · exact absurd (List.IsPrefix.eq_of_length hp (Nat.le_antisymm (List.IsPrefix.length_le hp) h)) hne
  have ht : t = (encodeState csrf origin).take t.length := List.prefix_iff_eq_take.1 hp
  unfold encodeState at ht hlen
  obtain ⟨m, hm, hd⟩ := base64urlDecode_take _ (utf8Encode_lt _ hw) t.length hlen
  obtain ⟨p, tail, hpp, hpne, htail, hu⟩ := utf8Decode_take _ hw m hm
  unfold decodeState
  rw [ht, hd, hu]
  exact jsonParse_truncated_state csrf origin p tail hc ho hpp hpne htail

/-- C6, as stated, fails: a token made by the encoder, with one character changed or
with characters appended, decodes successfully; presented with a matching cookie, the
changed token is accepted and the handler releases the access token. -/
theorem damaged_token_still_decodes :
    exampleToken = encodeState (hexEncode exampleRandom) (lit "https://site.example") ∧
    changedToken ≠ exampleToken ∧
    decodeState changedToken =
      some (JSON.obj [(lit "csrf", JSON.str (lit "001102030405060708090a0b0c0d0eff")),
        (lit "origin", JSON.str (lit "https://site.example"))]) ∧
    decodeState (exampleToken ++ lit "ICAg") =
      some (JSON.obj [(lit "csrf", JSON.str (hexEncode exampleRandom)),
        (lit "origin", JSON.str (lit "https://site.example"))]) ∧
    callback (examplePlatform (.returned tokenResponse))
        exampleConfig ⟨some (lit "abc123"), some changedToken, some changedToken⟩ =
      ⟨[], some (lit "text/html; charset=utf-8"), [tokenRequestBody exampleConfig (lit "abc123")],
        Reply.send 200 (successHtml (successMessage (examplePlatform (.returned tokenResponse))
          (JSON.str (lit "ghp_xyz"))))⟩ := by
  refine ⟨by decide, by decide, by rfl, by rfl, ?_⟩
  rw [callback_after_checks _ exampleConfig (lit "abc123") changedToken
    (JSON.obj [(lit "csrf", JSON.str (lit "001102030405060708090a0b0c0d0eff")),
      (lit "origin", JSON.str (lit "https://site.example"))])
    (JSON.str (lit "https://site.example")) (by decide) (by decide) (by rfl)
    (by rfl) (by rfl) (by decide)]
  rfl

/-- C6, amended. Every truncation of a token made by the encoder, that is every proper
initial part of it, fails to decode; presented as `state` with a matching cookie and a
non-empty `code`, a non-empty truncation gets 400 "Bad state". -/
theorem truncated_token_is_bad_state (P : Platform) (cfg : Config)
    (code csrf origin t : JSString) (hcode : code ≠ []) (hcsrf : IsJSString csrf)
    (horigin : IsJSString origin) (htrunc : ∃ rest, encodeState csrf origin = t ++ rest)
    (hne : t ≠ encodeState csrf origin) :
    decodeState t = none ∧
      (t ≠ [] → callback P cfg ⟨some code, some t, some t⟩ =
        ⟨[], none, [], Reply.send 400 (lit "Bad state")⟩) := by
  have hp : t <+: encodeState csrf origin := by
    obtain ⟨rest, hrest⟩ := htrunc
    exact ⟨rest, hrest.symm⟩
  have hd := decodeState_truncated csrf origin t hcsrf horigin hp hne
  refine ⟨hd, fun ht => ?_⟩
  have h1 := strTruthy_of_ne_nil code hcode
  have h2 := strTruthy_of_ne_nil t ht
  simp [callback, h1, h2, hd, plain]

/-- The first fifty characters of the example token. -/
theorem truncated_token_is_bad_state_witness :
    decodeState truncatedToken = none ∧
      (truncatedToken ≠ [] →
        callback (examplePlatform (.threw [])) exampleConfig
            ⟨some (lit "abc123"), some truncatedToken, some truncatedToken⟩ =
          ⟨[], none, [], Reply.send 400 (lit "Bad state")⟩) :=
  truncated_token_is_bad_state _ exampleConfig (lit "abc123") (hexEncode exampleRandom)
    (lit "https://site.example") truncatedToken (by decide) (by decide) (by decide)
    ⟨exampleToken.drop 50, by decide⟩ (by decide)

theorem skipWs_length_le (x : List Nat) : (skipWs x).length ≤ x.length := by
  induction x with
  | nil => simp [skipWs]
  | cons u t ih =>
    simp only [skipWs]
    split_ifs
    · simp only [List.length_cons]
      omega
    · exact Nat.le_refl _

theorem map_cons_rest_length (v : Nat) (q : Option (JSString × List Nat)) (s : JSString)
    (r : List Nat) (n : Nat) (hq : ∀ s r, q = some (s, r) → r.length < n)
    (h : q.map (fun p => (v :: p.1, p.2)) = some (s, r)) : r.length < n := by
  cases q with
  | none => simp at h
  | some p =>
    simp only [Option.map_some', Option.some.injEq, Prod.mk.injEq] at h
    rw [← h.2]
    exact hq p.1 p.2 rfl

theorem parseStringBody_length_aux (n : Nat) :
    ∀ x : List Nat, x.length ≤ n → ∀ s r, parseStringBody x = some (s, r) → r.length < x.length := by
  induction n with
  | zero =>
    intro x hx s r h
    have : x = [] := List.eq_nil_of_length_eq_zero (by omega)
    subst this
    simp [parseStringBody] at h
  | succ n ih =>
    intro x hx s r h
    cases x with
    | nil => simp [parseStringBody] at h
    | cons u rest =>
      simp only [List.length_cons] at hx ⊢
      rw [parseStringBody.eq_def] at h
      simp only at h
      split_ifs at h with c1 c2 c3
      · simp only [Option.some.injEq, Prod.mk.injEq] at h
        rw [← h.2]
        omega
      · cases rest with
        | nil => simp at h
        | cons e rest1 =>
          simp only [List.length_cons] at hx ⊢
          simp only at h
          split_ifs at h with c4
          · match rest1, h with
            | a :: b :: c :: d :: rest2, h =>
              simp only [List.length_cons] at hx ⊢
              simp only at h
              split at h
              · have := map_cons_rest_length _ _ s r rest2.length (ih rest2 (by omega)) h
                omega
              · simp at h
            | [], h => simp at h
            | [_], h => simp at h
            | [_, _], h => simp at h
            | [_, _, _], h => simp at h
          · split at h
            · have := map_cons_rest_length _ _ s r rest1.length (ih rest1 (by omega)) h
              omega
            · simp at h
      · have := map_cons_rest_length _ _ s r rest.length (ih rest (by omega)) h
        omega

theorem parseStringBody_length (x : List Nat) (s : JSString) (r : List Nat)
    (h : parseStringBody x = some (s, r)) : r.length < x.length :=
  parseStringBody_length_aux x.length x (Nat.le_refl _) s r h

theorem takeDigits_length (x : List Nat) : (takeDigits x).2.length ≤ x.length := by
  induction x with
  | nil => simp [takeDigits]
  | cons u t ih =>
    simp only [takeDigits]
    split_ifs
    · simp only [List.length_cons]
      omega
    · exact Nat.le_refl _

theorem parseNumber_length (x : List Nat) (l : JSString) (r : List Nat)
    (h : parseNumber x = some (l, r)) : r.length < x.length := by
  unfold parseNumber at h
  simp only at h
  have hbody : (if x.head? = some 45 then x.drop 1 else x).length ≤ x.length := by
    split_ifs
    · simp
    · exact Nat.le_refl _
  generalize (if x.head? = some 45 then x.drop 1 else x) = body at h hbody
  cases hi : parseInt body with
  | none => simp [hi] at h
  | some p1 =>
    have h1 : p1.2.length < body.length := by
      cases body with
      | nil => simp [parseInt] at hi
      | cons d rest =>
        simp only [parseInt] at hi
        split_ifs at hi
        · simp only [Option.some.injEq] at hi
          rw [← hi]
          simp
        · simp only [Option.some.injEq] at hi
          rw [← hi]
          have := takeDigits_length rest
          simp only [List.length_cons]
          omega
    cases hf : parseFrac p1.2 with
    | none => simp [hi, hf] at h
    | some p2 =>
      have h2 : p2.2.length ≤ p1.2.length := by
        generalize p1.2 = y at hf
        cases y with
        | nil =>
          simp only [parseFrac, Option.some.injEq] at hf
          rw [← hf]
        | cons u rest =>
          simp only [parseFrac] at hf
          split_ifs at hf
          · simp only [Option.some.injEq] at hf
            rw [← hf]
            have := takeDigits_length rest
            simp only [List.length_cons]
            omega
          · simp only [Option.some.injEq] at hf
            rw [← hf]
      cases he : parseExp p2.2 with
      | none => simp [hi, hf, he] at h
      | some p3 =>
        have h3 : p3.2.length ≤ p2.2.length := by
          generalize p2.2 = y at he
          cases y with
          | nil =>
            simp only [parseExp, Option.some.injEq] at he
            rw [← he]
          | cons u rest =>
            simp only [parseExp] at he
            split_ifs at he
            · cases rest with
              | nil => simp at he
              | cons sg rest1 =>
                simp only at he
                split_ifs at he
                · simp only [Option.some.injEq] at he
                  rw [← he]
                  have := takeDigits_length rest1
                  simp only [List.length_cons]
                  omega
                · simp only [Option.some.injEq] at he
                  rw [← he]
                  have := takeDigits_length (sg :: rest1)
                  simp only [List.length_cons] at this ⊢
                  omega
            · simp only [Option.some.injEq] at he
              rw [← he]
        simp only [hi, hf, he, Option.some.injEq, Prod.mk.injEq] at h
        rw [← h.2]
        omega

theorem parse_rest_length (f : Nat) :
    (∀ x v r, parseValue f x = some (v, r) → r.length < x.length) ∧
    (∀ x acc v r, parseElements f x acc = some (v, r) → r.length < x.length) ∧
    (∀ x acc v r, parseMembers f x acc = some (v, r) → r.length < x.length) := by
  induction f with
  | zero =>
    refine ⟨?_, ?_, ?_⟩
    · intro x v r h
      simp [parseValue] at h
    · intro x acc v r h
      simp [parseElements] at h
    · intro x acc v r h
      simp [parseMembers] at h
  | succ f ih =>
    obtain ⟨ihV, ihE, ihM⟩ := ih
    refine ⟨?_, ?_, ?_⟩
    · intro x v r h
      rw [parseValue] at h
      have hws := skipWs_length_le x
      cases hs : skipWs x with
      | nil => simp [hs] at h
      | cons u rest =>
        rw [hs] at h hws
        simp only [List.length_cons] at hws
        simp only at h
        split_ifs at h with c1 c2 c3 c4 c5 c6 c7
        · cases hp : parseStringBody rest with
          | none => simp [hp] at h
          | some p =>
            have := parseStringBody_length rest p.1 p.2 hp
            simp only [hp, Option.map_some', Option.some.injEq, Prod.mk.injEq] at h
            rw [← h.2]
            omega
        · have hws2 := skipWs_length_le rest
          cases hs2 : skipWs rest with
          | nil => simp [hs2] at h
          | cons c rest1 =>
            rw [hs2] at h hws2
            simp only [List.length_cons] at hws2
            simp only at h
            split_ifs at h
            · simp only [Option.some.injEq, Prod.mk.injEq] at h
              rw [← h.2]
              omega
            · have := ihE _ _ _ _ h
              simp only [List.length_cons] at this
              omega
        · have hws2 := skipWs_length_le rest
          cases hs2 : skipWs rest with
          | nil => simp [hs2] at h
          | cons c rest1 =>
            rw [hs2] at h hws2
            simp only [List.length_cons] at hws2
            simp only at h
            split_ifs at h
            · simp only [Option.some.injEq, Prod.mk.injEq] at h
              rw [← h.2]
              omega
            · have := ihM _ _ _ _ h
              simp only [List.length_cons] at this
              omega
        · simp only [Option.some.injEq, Prod.mk.injEq] at h
          rw [← h.2]
          simp only [List.length_drop]
          omega
        · simp only [Option.some.injEq, Prod.mk.injEq] at h
          rw [← h.2]
          simp only [List.length_drop]
          omega
        · simp only [Option.some.injEq, Prod.mk.injEq] at h
          rw [← h.2]
          simp only [List.length_drop]
          omega
        · cases hp : parseNumber (u :: rest) with
          | none => simp [hp] at h
          | some p =>
            have := parseNumber_length (u :: rest) p.1 p.2 hp
            simp only [hp, Option.map_some', Option.some.injEq, Prod.mk.injEq] at h
            rw [← h.2]
            simp only [List.length_cons] at this
            omega
    · intro x acc v r h
      rw [parseElements] at h
      cases hv : parseValue f x with
      | none => simp [hv] at h
      | some p =>
        have h1 := ihV x p.1 p.2 hv
        simp only [hv] at h
        have hws := skipWs_length_le p.2
        cases hs : skipWs p.2 with
        | nil => simp [hs] at h
        | cons c rest1 =>
          rw [hs] at h hws
          simp only [List.length_cons] at hws
          simp only at h
          split_ifs at h
          · have := ihE _ _ _ _ h
            omega
          · simp only [Option.some.injEq, Prod.mk.injEq] at h
            rw [← h.2]
            omega
    · intro x acc v r h
      rw [parseMembers] at h
      have hws := skipWs_length_le x
      cases hs : skipWs x with
      | nil => simp [hs] at h
      | cons q rest =>
        rw [hs] at h hws
        simp only [List.length_cons] at hws
        simp only at h
        split_ifs at h
        cases hp : parseStringBody rest with
        | none => simp [hp] at h
        | some p =>
          have h1 := parseStringBody_length rest p.1 p.2 hp
          simp only [hp] at h
          have hws2 := skipWs_length_le p.2
          cases hs2 : skipWs p.2 with
          | nil => simp [hs2] at h
          | cons c rest2 =>
            rw [hs2] at h hws2
            simp only [List.length_cons] at hws2
            simp only at h
            split_ifs at h
            cases hv : parseValue f rest2 with
            | none => simp [hv] at h
            | some pv =>
              have h2 := ihV rest2 pv.1 pv.2 hv
              simp only [hv] at h
              have hws3 := skipWs_length_le pv.2
              cases hs3 : skipWs pv.2 with
              | nil => simp [hs3] at h
              | cons d rest4 =>
                rw [hs3] at h hws3
                simp only [List.length_cons] at hws3
                simp only at h
                split_ifs at h
                · have := ihM _ _ _ _ h
                  omega
                · simp only [Option.some.injEq, Prod.mk.injEq] at h
                  rw [← h.2]
                  omega

theorem parse_fuel_aux (n : Nat) :
    ∀ x : List Nat, x.length ≤ n →
      (∀ f g, 2 * x.length + 2 ≤ f → 2 * x.length + 2 ≤ g → parseValue f x = parseValue g x) ∧
      (∀ f g acc, 2 * x.length + 3 ≤ f → 2 * x.length + 3 ≤ g →
        parseElements f x acc = parseElements g x acc) ∧
      (∀ f g acc, 2 * x.length + 1 ≤ f → 2 * x.length + 1 ≤ g →
        parseMembers f x acc = parseMembers g x acc) := by
  induction n using Nat.strong_induction_on with
  | _ n ih =>
    intro x hx
    have hV : ∀ f g, 2 * x.length + 2 ≤ f → 2 * x.length + 2 ≤ g →
        parseValue f x = parseValue g x := by
      intro f g hf hg
      obtain ⟨f', rfl⟩ : ∃ f', f = f' + 1 := ⟨f - 1, by omega⟩
      obtain ⟨g', rfl⟩ : ∃ g', g = g' + 1 := ⟨g - 1, by omega⟩
      rw [parseValue, parseValue]
      have hws := skipWs_length_le x
      cases hs : skipWs x with
      | nil => rfl
      | cons u rest =>
        rw [hs] at hws
        simp only [List.length_cons] at hws
        have hws2 := skipWs_length_le rest
        simp only
        cases hs2 : skipWs rest with
        | nil => rfl
        | cons c rest1 =>
          rw [hs2] at hws2
          simp only [List.length_cons] at hws2
          have hlen : (c :: rest1).length < x.length := by
            simp only [List.length_cons]
            omega
          have hrec := ih (c :: rest1).length (by omega) (c :: rest1) (Nat.le_refl _)
          simp only
          rw [hrec.2.1 f' g' [] (by omega) (by omega), hrec.2.2 f' g' [] (by omega) (by omega)]
    refine ⟨hV, ?_, ?_⟩
    · intro f g acc hf hg
      obtain ⟨f', rfl⟩ : ∃ f', f = f' + 1 := ⟨f - 1, by omega⟩
      obtain ⟨g', rfl⟩ : ∃ g', g = g' + 1 := ⟨g - 1, by omega⟩
      rw [parseElements, parseElements, hV f' g' (by omega) (by omega)]
      cases hv : parseValue g' x with
      | none => rfl
      | some p =>
        obtain ⟨v, rest⟩ := p
        have h1 := (parse_rest_length g').1 x v rest hv
        have hws := skipWs_length_le rest
        simp only
        cases hs : skipWs rest with
        | nil => rfl
        | cons c rest1 =>
          rw [hs] at hws
          simp only [List.length_cons] at hws
          have hrec := ih rest1.length (by omega) rest1 (Nat.le_refl _)
          simp only
          rw [hrec.2.1 f' g' _ (by omega) (by omega)]
    · intro f g acc hf hg
      obtain ⟨f', rfl⟩ : ∃ f', f = f' + 1 := ⟨f - 1, by omega⟩
      obtain ⟨g', rfl⟩ : ∃ g', g = g' + 1 := ⟨g - 1, by omega⟩
      rw [parseMembers, parseMembers]
      have hws := skipWs_length_le x
      cases hs : skipWs x with
      | nil => rfl
      | cons q rest =>
        rw [hs] at hws
        simp only [List.length_cons] at hws
        simp only
        split_ifs
        · cases hp : parseStringBody rest with
          | none => rfl
          | some p =>
            obtain ⟨k, rest1⟩ := p
            have h1 := parseStringBody_length rest k rest1 hp
            have hws2 := skipWs_length_le rest1
            simp only
            cases hs2 : skipWs rest1 with
            | nil => rfl
            | cons c rest2 =>
              rw [hs2] at hws2
              simp only [List.length_cons] at hws2
              simp only
              split_ifs
              · have hrec := ih rest2.length (by omega) rest2 (Nat.le_refl _)
                rw [hrec.1 f' g' (by omega) (by omega)]
                cases hv : parseValue g' rest2 with
                | none => rfl
                | some pv =>
                  obtain ⟨v, rest3⟩ := pv
                  have h2 := (parse_rest_length g').1 rest2 v rest3 hv
                  have hws3 := skipWs_length_le rest3
                  simp only
                  cases hs3 : skipWs rest3 with
                  | nil => rfl
                  | cons d rest4 =>
                    rw [hs3] at hws3
                    simp only [List.length_cons] at hws3
                    have hrec2 := ih rest4.length (by omega) rest4 (Nat.le_refl _)
                    simp only
                    rw [hrec2.2.2 f' g' _ (by omega) (by omega)]
              · rfl
        · rfl

/-- The fuel given by `jsonParse` is never exhausted: any larger amount gives the same
result. -/
theorem parseValue_fuel_enough (text : JSString) (fuel : Nat) (h : 2 * text.length + 2 ≤ fuel) :
    parseValue fuel text = parseValue (2 * text.length + 2) text :=
  (parse_fuel_aux text.length text (Nat.le_refl _)).1 fuel _ h (Nat.le_refl _)

/-- C12. Adding an entry to the allow-list, at any place, never turns an allowed
candidate into a rejected one. -/
theorem isAllowedOrigin_monotonic (P : Platform) (before after : List JSString)
    (entry candidate : JSString)
    (h : isAllowedOrigin P (before ++ after) candidate = true) :
    isAllowedOrigin P (before ++ entry :: after) candidate = true := by
  unfold isAllowedOrigin at h ⊢
  cases hu : P.urlHost candidate with
  | none => simp [hu] at h
  | some host =>
    simp only [hu, List.any_append, Bool.or_eq_true, List.any_cons] at h ⊢
    rcases h with h | h
    · exact Or.inl h
    · exact Or.inr (Or.inr h)

/-- The host `a.example.com`, matched by `*.example.com`, stays allowed when the exact
entry `a.example.com` is added. -/
theorem isAllowedOrigin_monotonic_witness :
    isAllowedOrigin (examplePlatform (.threw [])) ([lit "*.example.com"] ++ lit "a.example.com" :: [])
      (lit "https://a.example.com") = true :=
  isAllowedOrigin_monotonic _ [lit "*.example.com"] [] (lit "a.example.com")
    (lit "https://a.example.com") (by decide)

/-- C13, as stated, fails: a state equal to the cookie that does not decode gets the body
"Bad state", a state different from the cookie gets "Invalid state". -/
theorem bad_state_differs_from_invalid_state :
    decodeState truncatedToken = none ∧
    callback (examplePlatform (.threw [])) exampleConfig
        ⟨some (lit "abc123"), some truncatedToken, some truncatedToken⟩ =
      ⟨[], none, [], Reply.send 400 (lit "Bad state")⟩ ∧
    callback (examplePlatform (.threw [])) exampleConfig
        ⟨some (lit "abc123"), some truncatedToken, some exampleToken⟩ =
      ⟨[], none, [], Reply.send 400 (lit "Invalid state")⟩ ∧
    lit "Bad state" ≠ lit "Invalid state" := by
  refine ⟨by rfl, by decide, by decide, by decide⟩

/-- C13, amended. A callback whose `state` equals the cookie but fails to decode and a
callback whose `state` does not match the cookie are both rejected with status 400, with
no cookie, no content type and no request to the token endpoint; the bodies are
"Bad state" and "Invalid state". -/
theorem decode_failure_and_mismatch_rejected (P : Platform) (cfg : Config)
    (code state code2 state2 : JSString) (cookie2 : Option JSString)
    (hcode : code ≠ []) (hstate : state ≠ []) (hdecode : decodeState state = none)
    (hcode2 : code2 ≠ []) (hstate2 : state2 ≠ []) (hmismatch : cookie2 ≠ some state2) :
    callback P cfg ⟨some code, some state, some state⟩ =
      ⟨[], none, [], Reply.send 400 (lit "Bad state")⟩ ∧
    callback P cfg ⟨some code2, some state2, cookie2⟩ =
      ⟨[], none, [], Reply.send 400 (lit "Invalid state")⟩ := by
  have h1 := strTruthy_of_ne_nil code hcode
  have h2 := strTruthy_of_ne_nil state hstate
  have h3 := strTruthy_of_ne_nil code2 hcode2
  have h4 := strTruthy_of_ne_nil state2 hstate2
  constructor
  · simp [callback, h1, h2, hdecode, plain]
  · simp [callback, h3, h4, hmismatch, plain]

/-- A truncated token with a matching cookie, and the same token against another cookie. -/
theorem decode_failure_and_mismatch_rejected_witness :
    callback (examplePlatform (.threw [])) exampleConfig
        ⟨some (lit "abc123"), some truncatedToken, some truncatedToken⟩ =
      ⟨[], none, [], Reply.send 400 (lit "Bad state")⟩ ∧
    callback (examplePlatform (.threw [])) exampleConfig
        ⟨some (lit "abc123"), some truncatedToken, some exampleToken⟩ =
      ⟨[], none, [], Reply.send 400 (lit "Invalid state")⟩ :=
  decode_failure_and_mismatch_rejected _ exampleConfig (lit "abc123") truncatedToken (lit "abc123")
    truncatedToken (some exampleToken) (by decide) (by decide) (by rfl) (by decide) (by decide)
    (by decide)

theorem isJSString_of_wellFormed (s : JSString) (h : WellFormed s) : IsJSString s := by
  induction h with
  | nil => intro u hu; simp at hu
  | unit u s h1 _ _ _ ih =>
    intro x hx
    rcases List.mem_cons.1 hx with e | e
    · rw [e]
      exact h1
    · exact ih x e
  | pair hi lo s h1 h2 _ ih =>
    rw [isHighSurrogate_iff] at h1
    rw [isLowSurrogate_iff] at h2
    intro x hx
    rcases List.mem_cons.1 hx with e | e
    · omega
    · rcases List.mem_cons.1 e with e | e
      · omega
      · exact ih x e

theorem jsonParse_quote (s : JSString) (h : IsJSString s) : jsonParse (quote s) = some (JSON.str s) := by
  unfold jsonParse
  have hp := parseValue_string (2 * (quote s).length + 1) s [] h
  rw [List.append_nil] at hp
  have hf : 2 * (quote s).length + 2 = (2 * (quote s).length + 1) + 1 := by omega
  rw [hf, hp]
  rfl

theorem wellFormed_errorText (m : JSString) (h : IsJSString m) :
    WellFormed (lit "authorization:github:error:" ++
      (lit "\x7b\"error\":" ++ quote m ++ lit "\x7d")) := by
  refine wellFormed_append (wellFormed_of_ascii _ (by decide)) ?_
  rw [List.append_assoc]
  refine wellFormed_append (wellFormed_of_ascii _ (by decide)) ?_
  exact wellFormed_quote_append m _ h (wellFormed_of_ascii _ (by decide))

theorem errorMessage_eq (m : JSString) :
    errorMessage m =
      quote (lit "authorization:github:error:" ++
        (lit "\x7b\"error\":" ++ quote (if strTruthy m then m else lit "OAuth error") ++ lit "\x7d")) := by
  have h1 : lit "\x7b\"error\":" = 123 :: quote (lit "error") ++ [58] := by decide
  have h2 : lit "\x7d" = [125] := by decide
  simp only [errorMessage, stringify, stringifyProps, h1, h2]
  simp

/-- C14. When the callback passes the CSRF gate and the origin check and the token
exchange throws an exception with message `m`, the response has status 500 and content
type `text/html; charset=utf-8`; its body is the error page around a string literal that
denotes `authorization:github:error:` followed by the JSON text of `{error: m}`, with
"OAuth error" in place of an empty `m`; the body is determined by `m` alone. -/
theorem exchange_exception_page (P : Platform) (cfg : Config) (code state m : JSString)
    (parsed origin : JSON) (hcode : code ≠ []) (hstate : state ≠ [])
    (hdecode : decodeState state = some parsed) (horigin : originOf P parsed = some origin)
    (htruthy : truthy P origin = true)
    (hallowed : isAllowedOrigin P cfg.ORIGINS (toJSString P origin) = true)
    (hexchange : P.exchange (tokenRequestBody cfg code) = ExchangeResult.threw m)
    (hm : IsJSString m) :
    ∃ literal message shown,
      callback P cfg ⟨some code, some state, some state⟩ =
        ⟨[], some (lit "text/html; charset=utf-8"), [tokenRequestBody cfg code],
          Reply.send 500 (errorHtml literal)⟩ ∧
      shown = (if m = [] then lit "OAuth error" else m) ∧
      message = lit "authorization:github:error:" ++ (lit "\x7b\"error\":" ++ quote shown ++ lit "\x7d") ∧
      literal = quote message ∧
      jsonParse literal = some (JSON.str message) := by
  have hshown : (if strTruthy m then m else lit "OAuth error") = (if m = [] then lit "OAuth error" else m) := by
    cases m with
    | nil => rfl
    | cons a t => rfl
  have hjs : IsJSString (if m = [] then lit "OAuth error" else m) := by
    split_ifs
    · decide
    · exact hm
  refine ⟨errorMessage m, _, _, ?_, rfl, rfl, ?_, ?_⟩
  · rw [callback_after_checks P cfg code state parsed origin hcode hstate hdecode horigin htruthy
      hallowed, hexchange]
    rfl
  · rw [errorMessage_eq, hshown]
  · rw [errorMessage_eq, hshown]
    exact jsonParse_quote _ (isJSString_of_wellFormed _ (wellFormed_errorText _ hjs))

/-- The exchange throws with the message `request to https://github.com failed`. -/
theorem exchange_exception_page_witness :
    ∃ literal message shown,
      callback (examplePlatform (.threw (lit "request to https://github.com failed"))) exampleConfig
          ⟨some (lit "abc123"), some exampleToken, some exampleToken⟩ =
        ⟨[], some (lit "text/html; charset=utf-8"), [tokenRequestBody exampleConfig (lit "abc123")],
          Reply.send 500 (errorHtml literal)⟩ ∧
      shown = (if lit "request to https://github.com failed" = [] then lit "OAuth error"
        else lit "request to https://github.com failed") ∧
      message = lit "authorization:github:error:" ++ (lit "\x7b\"error\":" ++ quote shown ++ lit "\x7d") ∧
      literal = quote message ∧
      jsonParse literal = some (JSON.str message) :=
  exchange_exception_page _ exampleConfig (lit "abc123") exampleToken
    (lit "request to https://github.com failed") _
    (JSON.str (lit "https://site.example")) (by decide) (by decide) exampleToken_decodes
    (by rfl) (by rfl) (by decide) rfl (by decide)

theorem ne_nil_of_strTruthy (s : JSString) (h : strTruthy s = true) : s ≠ [] := by
  intro e
  rw [e] at h
  exact absurd h (by decide)

theorem callback_cases (P : Platform) (cfg : Config) (req : CallbackRequest) :
    (∃ b, b ∈ [lit "Missing code/state", lit "Invalid state", lit "Bad state",
        lit "Origin not allowed"] ∧ callback P cfg req = ⟨[], none, [], Reply.send 400 b⟩) ∨
    ∃ code state parsed origin,
      req.code = some code ∧ code ≠ [] ∧ req.state = some state ∧ state ≠ [] ∧
      req.oauth_state = some state ∧ decodeState state = some parsed ∧
      originOf P parsed = some origin ∧ truthy P origin = true ∧
      isAllowedOrigin P cfg.ORIGINS (toJSString P origin) = true ∧
      callback P cfg req =
        afterExchange P [tokenRequestBody cfg code] (P.exchange (tokenRequestBody cfg code)) := by
  obtain ⟨code, state, cookie⟩ := req
  cases code with
  | none => exact Or.inl ⟨lit "Missing code/state", by simp, by simp [callback, plain]⟩
  | some code =>
    cases state with
    | none => exact Or.inl ⟨lit "Missing code/state", by simp, by simp [callback, plain]⟩
    | some state =>
      by_cases hc : strTruthy code = true
      swap
      · exact Or.inl ⟨lit "Missing code/state", by simp, by simp [callback, plain, hc]⟩
      by_cases hs : strTruthy state = true
      swap
      · exact Or.inl ⟨lit "Missing code/state", by simp, by simp [callback, plain, hs]⟩
      by_cases hk : cookie = some state
      swap
      · exact Or.inl ⟨lit "Invalid state", by simp, by simp [callback, plain, hc, hs, hk]⟩
      subst hk
      cases hd : decodeState state with
      | none => exact Or.inl ⟨lit "Bad state", by simp, by simp [callback, plain, hc, hs, hd]⟩
      | some parsed =>
        cases ho : originOf P parsed with
        | none =>
          exact Or.inl ⟨lit "Origin not allowed", by simp, by simp [callback, plain, hc, hs, hd, ho]⟩
        | some origin =>
          by_cases ht : truthy P origin = true
          swap
          · exact Or.inl ⟨lit "Origin not allowed", by simp,
              by simp [callback, plain, hc, hs, hd, ho, ht]⟩
          by_cases ha : isAllowedOrigin P cfg.ORIGINS (toJSString P origin) = true
          swap
          · exact Or.inl ⟨lit "Origin not allowed", by simp,
              by simp [callback, plain, hc, hs, hd, ho, ht, ha]⟩
          exact Or.inr ⟨code, state, parsed, origin, rfl, ne_nil_of_strTruthy code hc, rfl,
            ne_nil_of_strTruthy state hs, rfl, hd, ho, ht, ha,
            callback_after_checks P cfg code state parsed origin (ne_nil_of_strTruthy code hc)
              (ne_nil_of_strTruthy state hs) hd ho ht ha⟩

theorem afterExchange_cases (P : Platform) (requests : List JSString) (r : ExchangeResult) :
    (∃ tokenData token, r = ExchangeResult.returned tokenData ∧
        getProp tokenData (lit "access_token") = some token ∧ truthy P token = true ∧
        afterExchange P requests r =
          ⟨[], some (lit "text/html; charset=utf-8"), requests,
            Reply.send 200 (successHtml (successMessage P token))⟩) ∨
    afterExchange P requests r =
      ⟨[], none, requests, Reply.send 400 (lit "Failed to obtain access token")⟩ ∨
    ∃ m, (r = ExchangeResult.threw m ∨
        (r = ExchangeResult.returned JSON.null ∧ m = P.nullReadMessage)) ∧
      afterExchange P requests r =
        ⟨[], some (lit "text/html; charset=utf-8"), requests,
          Reply.send 500 (errorHtml (errorMessage m))⟩ := by
  cases r with
  | threw m => exact Or.inr (Or.inr ⟨m, Or.inl rfl, rfl⟩)
  | returned tokenData =>
    by_cases hn : tokenData = JSON.null
    · subst hn
      exact Or.inr (Or.inr ⟨P.nullReadMessage, Or.inr ⟨rfl, rfl⟩, rfl⟩)
    · cases hg : getProp tokenData (lit "access_token") with
      | none =>
        refine Or.inr (Or.inl ?_)
        cases tokenData with
        | null => exact absurd rfl hn
        | _ => simp [afterExchange, hg]
      | some token =>
        by_cases ht : truthy P token = true
        · refine Or.inl ⟨tokenData, token, rfl, hg, ht, ?_⟩
          cases tokenData with
          | null => exact absurd rfl hn
          | _ => simp [afterExchange, hg, ht]
        · refine Or.inr (Or.inl ?_)
          cases tokenData with
          | null => exact absurd rfl hn
          | _ => simp [afterExchange, hg, ht]

/-- C15. Every response of `/callback` is sent with status 200, 400 or 500 and sets no
cookie.  Status 200 is sent only when `code` and `state` were non-empty, the cookie was
equal to `state`, `state` decoded to a value whose `origin` is truthy and accepted by
`isAllowedOrigin`, and the exchange returned a truthy `access_token`.  A 400 carries one
of five fixed bodies; a 500 carries the error page built from the exception message
alone. -/
theorem token_release_invariant (P : Platform) (cfg : Config) (req : CallbackRequest) :
    ∃ status body,
      (callback P cfg req).reply = Reply.send status body ∧
      (callback P cfg req).cookies = [] ∧
      (status = 200 →
        ∃ code state parsed origin tokenData token,
          req.code = some code ∧ code ≠ [] ∧ req.state = some state ∧ state ≠ [] ∧
          req.oauth_state = some state ∧ decodeState state = some parsed ∧
          originOf P parsed = some origin ∧ truthy P origin = true ∧
          isAllowedOrigin P cfg.ORIGINS (toJSString P origin) = true ∧
          P.exchange (tokenRequestBody cfg code) = ExchangeResult.returned tokenData ∧
          getProp tokenData (lit "access_token") = some token ∧ truthy P token = true ∧
          body = successHtml (successMessage P token)) ∧
      (status ≠ 200 →
        (status = 400 ∧
          body ∈ [lit "Missing code/state", lit "Invalid state", lit "Bad state",
            lit "Origin not allowed", lit "Failed to obtain access token"]) ∨
        (status = 500 ∧
          ∃ code m, req.code = some code ∧
            (P.exchange (tokenRequestBody cfg code) = ExchangeResult.threw m ∨
              (P.exchange (tokenRequestBody cfg code) = ExchangeResult.returned JSON.null ∧
                m = P.nullReadMessage)) ∧
            body = errorHtml (errorMessage m))) := by
  rcases callback_cases P cfg req with ⟨b, hb, hr⟩ |
    ⟨code, state, parsed, origin, h1, h2, h3, h4, h5, h6, h7, h8, h9, hr⟩
  · refine ⟨400, b, by rw [hr], by rw [hr], fun h => absurd h (by decide), fun _ => Or.inl ⟨rfl, ?_⟩⟩
    simp only [List.mem_cons, List.mem_singleton, List.not_mem_nil, or_false] at hb ⊢
    rcases hb with e | e | e | e
    · exact Or.inl e
    · exact Or.inr (Or.inl e)
    · exact Or.inr (Or.inr (Or.inl e))
    · exact Or.inr (Or.inr (Or.inr (Or.inl e)))
  · rcases afterExchange_cases P [tokenRequestBody cfg code] (P.exchange (tokenRequestBody cfg code))
      with ⟨tokenData, token, he, hg, ht, ha⟩ | ha | ⟨m, hm, ha⟩
    · refine ⟨200, _, by rw [hr, ha], by rw [hr, ha], fun _ => ?_, fun h => absurd rfl h⟩
      exact ⟨code, state, parsed, origin, tokenData, token, h1, h2, h3, h4, h5, h6, h7, h8, h9, he,
        hg, ht, rfl⟩
    · refine ⟨400, _, by rw [hr, ha], by rw [hr, ha], fun h => absurd h (by decide),
        fun _ => Or.inl ⟨rfl, by simp⟩⟩
    · refine ⟨500, _, by rw [hr, ha], by rw [hr, ha], fun h => absurd h (by decide),
        fun _ => Or.inr ⟨rfl, code, m, h1, hm, rfl⟩⟩

theorem parseParams_authorizeUrl (cfg : Config) (scope statePayload : JSString) :
    parseParams (queryOf (authorizeUrl cfg scope statePayload)) =
      [(lit "client_id", formDecode (formEncode (stringOfOptional cfg.CLIENT_ID))),
        (lit "redirect_uri", formDecode (formEncode (stringOfOptional cfg.REDIRECT_URL))),
        (lit "scope", formDecode (formEncode scope)),
        (lit "state", formDecode (formEncode statePayload))] := by
  rw [authorizeUrl_eq, queryOf_append _ _ (by decide) (fun h => (serializeParams_safe _ 35 h).2 rfl),
    parseParams_serializeParams]
  have n1 : formDecode (formEncode (lit "client_id")) = lit "client_id" := by decide
  have n2 : formDecode (formEncode (lit "redirect_uri")) = lit "redirect_uri" := by decide
  have n3 : formDecode (formEncode (lit "scope")) = lit "scope" := by decide
  have n4 : formDecode (formEncode (lit "state")) = lit "state" := by decide
  simp only [List.map_cons, List.map_nil, n1, n2, n3, n4]

theorem searchParamsGetAll_redirect_uri (cfg : Config) (scope statePayload : JSString) :
    searchParamsGetAll (authorizeUrl cfg scope statePayload) (lit "redirect_uri") =
      [formDecode (formEncode (stringOfOptional cfg.REDIRECT_URL))] := by
  unfold searchParamsGetAll
  rw [parseParams_authorizeUrl]
  have d1 : decide (lit "client_id" = lit "redirect_uri") = false := by decide
  have d3 : decide (lit "scope" = lit "redirect_uri") = false := by decide
  have d4 : decide (lit "state" = lit "redirect_uri") = false := by decide
  simp only [List.filter, d1, d3, d4, decide_True, List.map_cons, List.map_nil]

theorem searchParamsGetAll_client_id (cfg : Config) (scope statePayload : JSString) :
    searchParamsGetAll (authorizeUrl cfg scope statePayload) (lit "client_id") =
      [formDecode (formEncode (stringOfOptional cfg.CLIENT_ID))] := by
  unfold searchParamsGetAll
  rw [parseParams_authorizeUrl]
  have d2 : decide (lit "redirect_uri" = lit "client_id") = false := by decide
  have d3 : decide (lit "scope" = lit "client_id") = false := by decide
  have d4 : decide (lit "state" = lit "client_id") = false := by decide
  simp only [List.filter, d2, d3, d4, decide_True, List.map_cons, List.map_nil]

theorem beforeQuery_authorizeUrl (cfg : Config) (scope statePayload : JSString) :
    beforeQuery (authorizeUrl cfg scope statePayload) =
      lit "https://github.com/login/oauth/authorize" := by
  unfold beforeQuery
  rw [authorizeUrl_eq]
  exact takeWhile_ne_append 63 _ _ (by decide)

/-- C11. Two accepted `/auth` requests under one configuration, whatever their `origin`,
`site_id` and `scope`, are redirected to URLs whose part before the query is
`https://github.com/login/oauth/authorize`, each with exactly one `redirect_uri`
parameter, whose decoded value is the configured `REDIRECT_URL`, and with the same
`client_id` parameter. -/
theorem redirect_target_fixed (P : Platform) (cfg : Config) (random1 random2 : Bytes)
    (q1 q2 : AuthQuery) (raw1 raw2 redirectUrl : JSString)
    (hprovider1 : q1.provider = none ∨ q1.provider = some (lit "github"))
    (hraw1 : orElse q1.origin q1.site_id = some raw1) (hne1 : raw1 ≠ [])
    (hallowed1 : isAllowedOrigin P cfg.ORIGINS (normalizeOrigin raw1) = true)
    (hprovider2 : q2.provider = none ∨ q2.provider = some (lit "github"))
    (hraw2 : orElse q2.origin q2.site_id = some raw2) (hne2 : raw2 ≠ [])
    (hallowed2 : isAllowedOrigin P cfg.ORIGINS (normalizeOrigin raw2) = true)
    (hconfigured : cfg.REDIRECT_URL = some redirectUrl) (hwf : WellFormed redirectUrl) :
    ∃ url1 url2 cookies1 cookies2,
      auth P cfg random1 q1 = ⟨cookies1, none, [], Reply.redirect url1⟩ ∧
      auth P cfg random2 q2 = ⟨cookies2, none, [], Reply.redirect url2⟩ ∧
      beforeQuery url1 = lit "https://github.com/login/oauth/authorize" ∧
      beforeQuery url2 = lit "https://github.com/login/oauth/authorize" ∧
      searchParamsGetAll url1 (lit "redirect_uri") = [redirectUrl] ∧
      searchParamsGetAll url2 (lit "redirect_uri") = [redirectUrl] ∧
      (∃ clientId, searchParamsGetAll url1 (lit "client_id") = [clientId] ∧
        searchParamsGetAll url2 (lit "client_id") = [clientId]) := by
  have hr : formDecode (formEncode (stringOfOptional cfg.REDIRECT_URL)) = redirectUrl := by
    rw [hconfigured]
    exact formDecode_formEncode redirectUrl hwf
  refine ⟨_, _, _, _, auth_accepted P cfg random1 q1 raw1 hprovider1 hraw1 hne1 hallowed1,
    auth_accepted P cfg random2 q2 raw2 hprovider2 hraw2 hne2 hallowed2,
    beforeQuery_authorizeUrl _ _ _, beforeQuery_authorizeUrl _ _ _, ?_, ?_, ?_⟩
  · rw [searchParamsGetAll_redirect_uri, hr]
  · rw [searchParamsGetAll_redirect_uri, hr]
  · exact ⟨_, searchParamsGetAll_client_id _ _ _, searchParamsGetAll_client_id _ _ _⟩

/-- A request with the scope `x&redirect_uri=https://evil` and a plain request. -/
theorem redirect_target_fixed_witness :
    ∃ url1 url2 cookies1 cookies2,
      auth (examplePlatform (.threw [])) exampleConfig exampleRandom
          ⟨none, some (lit "https://site.example"), none, some (lit "x&redirect_uri=https://evil")⟩ =
        ⟨cookies1, none, [], Reply.redirect url1⟩ ∧
      auth (examplePlatform (.threw [])) exampleConfig exampleRandom
          ⟨some (lit "github"), none, some (lit "site.example"), none⟩ =
        ⟨cookies2, none, [], Reply.redirect url2⟩ ∧
      beforeQuery url1 = lit "https://github.com/login/oauth/authorize" ∧
      beforeQuery url2 = lit "https://github.com/login/oauth/authorize" ∧
      searchParamsGetAll url1 (lit "redirect_uri") = [lit "https://oauth.example/callback"] ∧
      searchParamsGetAll url2 (lit "redirect_uri") = [lit "https://oauth.example/callback"] ∧
      (∃ clientId, searchParamsGetAll url1 (lit "client_id") = [clientId] ∧
        searchParamsGetAll url2 (lit "client_id") = [clientId]) :=
  redirect_target_fixed _ exampleConfig exampleRandom exampleRandom _ _
    (lit "https://site.example") (lit "site.example") (lit "https://oauth.example/callback")
    (Or.inl rfl) (by decide) (by decide) (by decide)
    (Or.inr rfl) (by decide) (by decide) (by decide)
    rfl (wellFormed_of_ascii _ (by decide))

theorem occurrences_eq_zero_iff (s p : JSString) (hp : p ≠ []) :
    occurrences s p = 0 ↔ includes s p = false := by
  have he : p.isEmpty = false := by
    cases p with
    | nil => exact absurd rfl hp
    | cons a t => rfl
  induction s with
  | nil => simp [occurrences, includes, he]
  | cons u t ih =>
    simp only [occurrences, includes, Bool.or_eq_false_iff, Nat.add_eq_zero_iff, ih]
    constructor
    · rintro ⟨h1, h2⟩
      refine ⟨?_, h2⟩
      by_cases h : p.isPrefixOf (u :: t) = true
      · simp [h] at h1
      · exact Bool.eq_false_iff.2 h
    · rintro ⟨h1, h2⟩
      exact ⟨by simp [h1], h2⟩

theorem isPrefixOf_append_sep (p a b : JSString) (sep : Nat) (hp : p ≠ []) (hs : sep ∉ p) :
    p.isPrefixOf (a ++ sep :: b) = p.isPrefixOf a := by
  induction a generalizing p with
  | nil =>
    cases p with
    | nil => exact absurd rfl hp
    | cons c t =>
      have hc : c ≠ sep := fun e => hs (by simp [e])
      simp [List.isPrefixOf, hc]
  | cons x a ih =>
    cases p with
    | nil => exact absurd rfl hp
    | cons c t =>
      cases t with
      | nil => simp [List.isPrefixOf]
      | cons d t2 =>
        have := ih (d :: t2) (by simp) (fun e => hs (by simp at e ⊢; exact Or.inr e))
        simp only [List.cons_append, List.isPrefixOf, List.append_eq, this]

theorem occurrences_append_sep (a b p : JSString) (sep : Nat) (hp : p ≠ []) (hs : sep ∉ p) :
    occurrences (a ++ sep :: b) p = occurrences a p + occurrences b p := by
  have he : p.isEmpty = false := by
    cases p with
    | nil => exact absurd rfl hp
    | cons a t => rfl
  induction a with
  | nil =>
    have h := isPrefixOf_append_sep p [] b sep hp hs
    simp only [List.nil_append] at h
    have h0 : p.isPrefixOf ([] : JSString) = false := by
      cases p with
      | nil => exact absurd rfl hp
      | cons c t => rfl
    simp [occurrences, h, h0, he]
  | cons x a ih =>
    have h := isPrefixOf_append_sep p (x :: a) b sep hp hs
    simp only [List.cons_append] at h
    simp only [List.cons_append, occurrences, List.append_eq, h, ih]
    omega

theorem hexDigit_ne_lt (d : Nat) (h : d < 16) : hexDigit d ≠ 60 := by
  unfold hexDigit
  split_ifs <;> omega

theorem quoteUnit_cases (u : Nat) : quoteUnit u = [u] ∨ ∃ tl, quoteUnit u = 92 :: tl ∧ 60 ∉ tl := by
  unfold quoteUnit
  split_ifs
  iterate 7 exact Or.inr ⟨_, rfl, by decide⟩
  · right
    refine ⟨_, rfl, ?_⟩
    intro h
    simp only [List.mem_cons, List.mem_singleton, List.not_mem_nil, or_false] at h
    rcases h with e | e | e | e | e
    · exact absurd e (by decide)
    · exact hexDigit_ne_lt _ (by omega) e.symm
    · exact hexDigit_ne_lt _ (by omega) e.symm
    · exact hexDigit_ne_lt _ (by omega) e.symm
    · exact hexDigit_ne_lt _ (by omega) e.symm
  · exact Or.inl rfl

theorem quoteBody_cons_cases (u : Nat) (rest : JSString) :
    (∃ l rest2, rest = l :: rest2 ∧ isHighSurrogate u = true ∧ isLowSurrogate l = true ∧
        quoteBody (u :: rest) = u :: l :: quoteBody rest2) ∨
      quoteBody (u :: rest) = quoteUnit u ++ quoteBody rest := by
  cases rest with
  | nil => exact Or.inr (by simp [quoteBody])
  | cons l rest2 =>
    by_cases h : (isHighSurrogate u && isLowSurrogate l) = true
    · left
      rw [Bool.and_eq_true] at h
      exact ⟨l, rest2, rfl, h.1, h.2, by simp [quoteBody, h.1, h.2]⟩
    · right
      simp [quoteBody, h]

theorem prefix_of_quoteBody (p s : JSString)
    (hp : ∀ c ∈ p, c ≠ 92 ∧ c < 55296) (h : p <+: quoteBody s) : p <+: s := by
  induction p generalizing s with
  | nil => exact List.nil_prefix
  | cons c t ih =>
    have hc := hp c (by simp)
    have ht : ∀ x ∈ t, x ≠ 92 ∧ x < 55296 := fun x hx => hp x (by simp [hx])
    cases s with
    | nil =>
      simp only [quoteBody, List.prefix_nil] at h
      exact absurd h (by simp)
    | cons u rest =>
      rcases quoteBody_cons_cases u rest with ⟨l, rest2, _, hu, _, hq⟩ | hq
      · rw [hq, List.cons_prefix_cons] at h
        rw [isHighSurrogate_iff] at hu
        omega
      · rw [hq] at h
        rcases quoteUnit_cases u with hu | ⟨tl, hu, _⟩
        · rw [hu, List.singleton_append, List.cons_prefix_cons] at h
          rw [List.cons_prefix_cons]
          exact ⟨h.1, ih rest ht h.2⟩
        · rw [hu, List.cons_append, List.cons_prefix_cons] at h
          exact absurd h.1 hc.1

theorem includes_cons (u : Nat) (s p : JSString) (h : includes s p = true) :
    includes (u :: s) p = true := by
  simp [includes, h]

theorem includes_of_quoteBody_aux (p : JSString) (hp : ∀ c ∈ p, c ≠ 92 ∧ c < 55296) (n : Nat) :
    ∀ s : JSString, s.length ≤ n → ∀ pre post, quoteBody s = pre ++ (60 :: p) ++ post →
      includes s (60 :: p) = true := by
  have hp2 : ∀ c ∈ 60 :: p, c ≠ 92 ∧ c < 55296 := by
    intro c hc
    rcases List.mem_cons.1 hc with e | e
    · omega
    · exact hp c e
  induction n with
  | zero =>
    intro s hs pre post h
    have : s = [] := List.eq_nil_of_length_eq_zero (by omega)
    subst this
    simp [quoteBody] at h
  | succ n ih =>
    intro s hs pre post h
    cases pre with
    | nil =>
      have hpre : (60 :: p) <+: quoteBody s := ⟨post, by simpa using h.symm⟩
      obtain ⟨tl, htl⟩ := prefix_of_quoteBody _ s hp2 hpre
      exact (includes_iff s _).2 ⟨[], tl, by simpa using htl.symm⟩
    | cons c0 pre2 =>
      cases s with
      | nil => simp [quoteBody] at h
      | cons u rest =>
        simp only [List.length_cons] at hs
        rcases quoteBody_cons_cases u rest with ⟨l, rest2, hrest, _, hl, hq⟩ | hq
        · subst hrest
          simp only [List.length_cons] at hs
          rw [hq] at h
          simp only [List.cons_append, List.cons.injEq] at h
          cases pre2 with
          | nil =>
            simp only [List.nil_append, List.cons_append, List.cons.injEq] at h
            rw [isLowSurrogate_iff] at hl
            omega
          | cons c1 pre3 =>
            simp only [List.cons_append, List.cons.injEq] at h
            have := ih rest2 (by omega) pre3 post (by simpa using h.2.2)
            exact includes_cons _ _ _ (includes_cons _ _ _ this)
        · rw [hq] at h
          rcases quoteUnit_cases u with hu | ⟨tl, hu, h60⟩
          · rw [hu] at h
            simp only [List.cons_append, List.nil_append, List.cons.injEq] at h
            exact includes_cons _ _ _ (ih rest (by omega) pre2 post (by simpa using h.2))
          · rw [hu] at h
            simp only [List.cons_append, List.cons.injEq, List.append_assoc] at h
            rcases List.append_eq_append_iff.1 h.2 with ⟨a, ha, hb⟩ | ⟨c, hc, hd⟩
            · exact includes_cons _ _ _ (ih rest (by omega) a post (by simpa using hb))
            · cases c with
              | nil =>
                simp only [List.nil_append] at hd
                exact includes_cons _ _ _ (ih rest (by omega) [] post (by simpa using hd.symm))
              | cons x c2 =>
                simp only [List.cons_append, List.cons.injEq] at hd
                exact absurd (by rw [hc, ← hd.1]; simp) h60

theorem includes_of_quoteBody (s p : JSString) (hp : ∀ c ∈ p, c ≠ 92 ∧ c < 55296)
    (h : includes s (60 :: p) = false) : includes (quoteBody s) (60 :: p) = false := by
  rw [← Bool.not_eq_true] at h ⊢
  intro hq
  obtain ⟨pre, post, hpp⟩ := (includes_iff _ _).1 hq
  exact h (includes_of_quoteBody_aux p hp s.length s (Nat.le_refl _) pre post hpp)

theorem lit_script_end : lit "</script>" = 60 :: [47, 115, 99, 114, 105, 112, 116, 62] := by decide

theorem occurrences_quoteBody (s : JSString) (h : includes s (lit "</script>") = false) :
    occurrences (quoteBody s) (lit "</script>") = 0 := by
  rw [occurrences_eq_zero_iff _ _ (by decide)]
  rw [lit_script_end] at h ⊢
  exact includes_of_quoteBody s _ (by decide) h

theorem occurrences_quote_between (a b s : JSString) (h : includes s (lit "</script>") = false)
    (ha : occurrences a (lit "</script>") = 0) (hb : occurrences b (lit "</script>") = 0) :
    includes (a ++ quote s ++ b) (lit "</script>") = false := by
  rw [← occurrences_eq_zero_iff _ _ (by decide)]
  have e : a ++ quote s ++ b = a ++ 34 :: (quoteBody s ++ 34 :: b) := by simp [quote]
  rw [e, occurrences_append_sep _ _ _ 34 (by decide) (by decide),
    occurrences_append_sep _ _ _ 34 (by decide) (by decide), ha, hb, occurrences_quoteBody s h]

theorem occurrences_page (head tail s : JSString) (h : includes s (lit "</script>") = false)
    (hh : occurrences head (lit "</script>") = 0) (ht : occurrences tail (lit "</script>") = 1) :
    occurrences (head ++ quote s ++ tail) (lit "</script>") = 1 := by
  have e : head ++ quote s ++ tail = head ++ 34 :: (quoteBody s ++ 34 :: tail) := by simp [quote]
  rw [e, occurrences_append_sep _ _ _ 34 (by decide) (by decide),
    occurrences_append_sep _ _ _ 34 (by decide) (by decide), hh, ht, occurrences_quoteBody s h]

theorem successMessage_eq (P : Platform) (t : JSString) :
    successMessage P (JSON.str t) =
      quote (lit "authorization:github:success:\x7b\"token\":" ++ quote t ++
        lit ",\"provider\":\"github\"\x7d") := by
  have h1 : lit "authorization:github:success:\x7b\"token\":" =
      lit "authorization:github:success:" ++ (123 :: quote (lit "token") ++ [58]) := by decide
  have h2 : lit ",\"provider\":\"github\"\x7d" =
      44 :: quote (lit "provider") ++ 58 :: (quote (lit "github") ++ [125]) := by decide
  simp only [successMessage, stringify, stringifyProps, h1, h2]
  simp

theorem errorMessage_eq_between (m : JSString) :
    errorMessage m =
      quote (lit "authorization:github:error:\x7b\"error\":" ++
        quote (if strTruthy m then m else lit "OAuth error") ++ lit "\x7d") := by
  have h1 : lit "authorization:github:error:\x7b\"error\":" =
      lit "authorization:github:error:" ++ lit "\x7b\"error\":" := by decide
  rw [errorMessage_eq, h1]
  simp

/-- C16, as stated, fails: for the access token `</script>` the success page contains
`</script>` twice. -/
theorem script_end_tag_twice :
    callback (examplePlatform (.returned scriptResponse))
        exampleConfig ⟨some (lit "abc123"), some exampleToken, some exampleToken⟩ =
      ⟨[], some (lit "text/html; charset=utf-8"), [tokenRequestBody exampleConfig (lit "abc123")],
        Reply.send 200 (successHtml (successMessage (examplePlatform (.returned scriptResponse))
          (JSON.str scriptToken)))⟩ ∧
    occurrences (successHtml (successMessage (examplePlatform (.returned scriptResponse))
        (JSON.str scriptToken)))
      (lit "</script>") = 2 := by
  refine ⟨?_, by decide⟩
  rw [callback_after_checks _ exampleConfig (lit "abc123") exampleToken _
    (JSON.str (lit "https://site.example")) (by decide) (by decide) exampleToken_decodes
    (by rfl) (by rfl) (by decide)]
  rfl

/-- C16, amended. For every access token string `t` and every exception message `m` that
do not contain `</script>`, the success page for `t` and the error page for `m` each
contain `</script>` exactly once. -/
theorem script_end_tag_once (P : Platform) (t m : JSString)
    (ht : includes t (lit "</script>") = false) (hm : includes m (lit "</script>") = false) :
    occurrences (successHtml (successMessage P (JSON.str t))) (lit "</script>") = 1 ∧
    occurrences (errorHtml (errorMessage m)) (lit "</script>") = 1 := by
  constructor
  · rw [successMessage_eq]
    unfold successHtml
    exact occurrences_page _ _ _
      (occurrences_quote_between _ _ t ht (by decide) (by decide)) (by decide) (by decide)
  · have hm2 : includes (if strTruthy m then m else lit "OAuth error") (lit "</script>") = false := by
      split_ifs
      · exact hm
      · decide
    rw [errorMessage_eq_between]
    unfold errorHtml
    exact occurrences_page _ _ _
      (occurrences_quote_between _ _ _ hm2 (by decide) (by decide)) (by decide) (by decide)

/-- The token `ghp_xyz` and the message `request failed`. -/
theorem script_end_tag_once_witness :
    occurrences (successHtml (successMessage (examplePlatform (.threw [])) (JSON.str (lit "ghp_xyz"))))
      (lit "</script>") = 1 ∧
    occurrences (errorHtml (errorMessage (lit "request failed"))) (lit "</script>") = 1 :=
  script_end_tag_once _ (lit "ghp_xyz") (lit "request failed") (by decide) (by decide)

theorem decodeState_reads_low_bytes :
    decodeState lowByteToken = decodeState exampleToken ∧
    decodeState paddedToken = decodeState exampleToken ∧
    callback (examplePlatform (.returned tokenResponse)) exampleConfig
        ⟨some (lit "abc123"), some lowByteToken, some lowByteToken⟩ =
      ⟨[], some (lit "text/html; charset=utf-8"), [tokenRequestBody exampleConfig (lit "abc123")],
        Reply.send 200 (successHtml (successMessage (examplePlatform (.returned tokenResponse))
          (JSON.str (lit "ghp_xyz"))))⟩ ∧
    callback (examplePlatform (.returned tokenResponse)) exampleConfig
        ⟨some (lit "abc123"), some paddedToken, some paddedToken⟩ =
      ⟨[], some (lit "text/html; charset=utf-8"), [tokenRequestBody exampleConfig (lit "abc123")],
        Reply.send 200 (successHtml (successMessage (examplePlatform (.returned tokenResponse))
          (JSON.str (lit "ghp_xyz"))))⟩ := by
  refine ⟨by rfl, by rfl, ?_, ?_⟩
  · rw [callback_after_checks _ exampleConfig (lit "abc123") lowByteToken
      (JSON.obj [(lit "csrf", JSON.str (hexEncode exampleRandom)),
        (lit "origin", JSON.str (lit "https://site.example"))])
      (JSON.str (lit "https://site.example")) (by decide) (by decide) (by rfl)
      (by rfl) (by rfl) (by decide)]
    rfl
  · rw [callback_after_checks _ exampleConfig (lit "abc123") paddedToken
      (JSON.obj [(lit "csrf", JSON.str (hexEncode exampleRandom)),
        (lit "origin", JSON.str (lit "https://site.example"))])
      (JSON.str (lit "https://site.example")) (by decide) (by decide) (by rfl)
      (by rfl) (by rfl) (by decide)]
    rfl

end OAuthProvider
